import Mathlib

/-!
# go-markdown2confluence: the synchronisation core of `MarkdownFile.go`

A shallow embedding of `src/markdown2confluence/MarkdownFile.go`.

* The remote content store client (`confluence.Client`) is an external
  collaborator.  It is a parameter: three operations over an arbitrary store
  state `σ`, each returning the Go pair `(value, err)`; `err = none` is Go's
  `nil` error and `some msg` an error whose `Error()` text is `msg`.
* The process-wide `ParentIndex` map, the store state and the sequence of
  remote calls issued so far are carried explicitly in a `World`.
* Reading the file, parsing the front matter and rendering the body are
  collaborators too and are the fields of `Env`.
* Debug printing (`m.Debug`) only writes to standard output and is left out.
-/

namespace Markdown2Confluence

/-! ## Data model -/

/-- Ancestor link, `type Ancestor struct { ID string }` (MarkdownFile.go:232). -/
structure Ancestor where
  ID : String
  deriving DecidableEq

/-- Modelled from the spec: `confluence.Label` is declared in the client library,
not under src; the spec gives `Label: { name: string }`. -/
structure Label where
  Name : String
  deriving DecidableEq

/-- Modelled from the spec: `confluence.Metadata`, built at MarkdownFile.go:148 with
the single field `Labels`. -/
structure Metadata where
  Labels : List Label
  deriving DecidableEq

/-- Modelled from the spec: `confluence.Content` (the spec's RemotePage) is declared in the
client library, not under src.  The fields are those the code reads or writes;
`versionNumber` is an integer in the spec, `Metadata` is a pointer in the code
(`none` is the nil pointer). -/
structure Content where
  ID : String
  Title : String
  SpaceKey : String
  VersionNumber : Int
  BodyRepresentation : String
  BodyValue : String
  Ancestors : List Ancestor
  Metadata : Option Metadata
  Tinyui : String
  deriving DecidableEq

/-- Modelled from the spec: `confluence.GetContentQueryParameters`, with the fields set at
MarkdownFile.go:90-96 and 189-194. -/
structure GetContentQueryParameters where
  Title : String
  Spacekey : String
  Limit : Nat
  Type_ : String
  Expand : List String
  deriving DecidableEq

/-- Modelled from the spec: `confluence.CreateContentBodyParameters`, with the fields set at
MarkdownFile.go:130-141 and 206-221. -/
structure CreateContentBodyParameters where
  Title : String
  Type_ : String
  SpaceKey : String
  BodyRepresentation : String
  BodyValue : String
  Ancestors : List Ancestor
  deriving DecidableEq

/-- One remote call, with the argument it was issued with. -/
inductive Call where
  | getContent (q : GetContentQueryParameters)
  | createContent (bp : CreateContentBodyParameters)
  | updateContent (c : Content)
  deriving DecidableEq

/-- The store client: every operation returns Go's `(value, err)` pair and the
next store state. -/
structure Client (σ : Type) where
  GetContent : GetContentQueryParameters → σ → (List Content × Option String) × σ
  CreateContent : CreateContentBodyParameters → σ → (Content × Option String) × σ
  UpdateContent : Content → σ → (Content × Option String) × σ

/-- Everything that outlives one call: the store, the package-level
`ParentIndex` map (MarkdownFile.go:173) and the log of remote calls, oldest
first. -/
structure World (σ : Type) where
  store : σ
  ParentIndex : List (String × String)
  calls : List Call

/-- Map read `m[k]` with the comma-ok form. -/
def mapGet (m : List (String × String)) (k : String) : Option String :=
  match m with
  | [] => none
  | (k1, v) :: rest => if k1 = k then some v else mapGet rest k

/-- Map assignment `m[k] = v`: the old entry for `k`, if any, is replaced. -/
def mapSet (m : List (String × String)) (k v : String) : List (String × String) :=
  (k, v) :: m.filter (fun p => decide (p.1 ≠ k))

/-- Fields of `Markdown2Confluence` (declared outside src) that the code reads. -/
structure Config where
  Space : String
  Username : String
  Password : String
  Endpoint : String
  Debug : Bool
  deriving DecidableEq

/-- The file to upload, `type MarkdownFile struct` (MarkdownFile.go:13). -/
structure MarkdownFile where
  Path : String
  Title : String
  Parents : List String
  Ancestor : String
  deriving DecidableEq

/-- Dynamic values of a parsed YAML front matter (`interface{}`).  `other`
stands for a value of any further dynamic type and carries its renderings under
the verbs `%v` and `%s`. -/
inductive Value where
  | str (s : String)
  | int (n : Int)
  | bool (b : Bool)
  | null
  | seq (xs : List Value)
  | other (v s : String)

/-- Front matter, `map[string]interface{}`. -/
abbrev FrontMatter := List (String × Value)

/-- Front-matter read `fm[k]` with the comma-ok form. -/
def fmGet (fm : FrontMatter) (k : String) : Option Value :=
  match fm with
  | [] => none
  | (k1, v) :: rest => if k1 = k then some v else fmGet rest k

mutual
/-- Rendering under `fmt.Sprintf("%v", x)`. -/
def sprintV : Value → String
  | .str s => s
  | .int n => toString n
  | .bool b => if b then "true" else "false"
  | .null => "<nil>"
  | .seq xs => "[" ++ sprintVs xs ++ "]"
  | .other v _ => v
/-- Elements of a slice under `%v`, separated by one blank. -/
def sprintVs : List Value → String
  | [] => ""
  | [x] => sprintV x
  | x :: y :: rest => sprintV x ++ " " ++ sprintVs (y :: rest)
end

mutual
/-- Rendering under `fmt.Sprintf("%s", x)`. -/
def sprintS : Value → String
  | .str s => s
  | .int n => "%!s(int=" ++ toString n ++ ")"
  | .bool b => if b then "%!s(bool=true)" else "%!s(bool=false)"
  | .null => "%!s(<nil>)"
  | .seq xs => "[" ++ sprintSs xs ++ "]"
  | .other _ s => s
/-- Elements of a slice under `%s`, separated by one blank.  A nil element is
printed as `<nil>` under every verb; the bad-verb form is for a nil operand
only. -/
def sprintSs : List Value → String
  | [] => ""
  | [.null] => "<nil>"
  | [x] => sprintS x
  | .null :: y :: rest => "<nil>" ++ " " ++ sprintSs (y :: rest)
  | x :: y :: rest => sprintS x ++ " " ++ sprintSs (y :: rest)
end

/-! ## The remote calls, logged -/

/-- `client.GetContent(q)`: performs the search and records the call. -/
def doGetContent {σ : Type} (cl : Client σ) (q : GetContentQueryParameters) (w : World σ) :
    (List Content × Option String) × World σ :=
  let r := cl.GetContent q w.store
  (r.1, { w with store := r.2, calls := w.calls ++ [Call.getContent q] })

/-- `client.CreateContent(bp, nil)`: performs the create and records the call. -/
def doCreateContent {σ : Type} (cl : Client σ) (bp : CreateContentBodyParameters) (w : World σ) :
    (Content × Option String) × World σ :=
  let r := cl.CreateContent bp w.store
  (r.1, { w with store := r.2, calls := w.calls ++ [Call.createContent bp] })

/-- `client.UpdateContent(c, nil)`: performs the update and records the call. -/
def doUpdateContent {σ : Type} (cl : Client σ) (c : Content) (w : World σ) :
    (Content × Option String) × World σ :=
  let r := cl.UpdateContent c w.store
  (r.1, { w with store := r.2, calls := w.calls ++ [Call.updateContent c] })

/-! ## Ancestor resolver (MarkdownFile.go:160-243) -/

/-- The constant `defaultAncestorPage` (MarkdownFile.go:236). -/
def defaultAncestorPage : String :=
  "\n<p>\n   <ac:structured-macro ac:name=\"children\" ac:schema-version=\"2\" ac:macro-id=\"a93cdc19-61cd-4c21-8da7-0af3c6b76c07\">\n      <ac:parameter ac:name=\"all\">true</ac:parameter>\n      <ac:parameter ac:name=\"sort\">title</ac:parameter>\n   </ac:structured-macro>\n</p>\n"

/-- The search issued for a folder name (MarkdownFile.go:189-194). -/
def parentQuery (m : Config) (parent : String) : GetContentQueryParameters :=
  { Title := parent, Spacekey := m.Space, Limit := 1, Type_ := "page", Expand := [] }

/-- The stub page built for a folder name (MarkdownFile.go:206-221). -/
def parentStub (m : Config) (ancestorID parent : String) : CreateContentBodyParameters :=
  { Title := parent
    Type_ := "page"
    SpaceKey := m.Space
    BodyRepresentation := "storage"
    BodyValue := defaultAncestorPage
    Ancestors := if ancestorID ≠ "" then [] ++ [{ ID := ancestorID }] else [] }

/-- `FindOrCreateAncestor` (MarkdownFile.go:176-229). -/
def FindOrCreateAncestor {σ : Type} (cl : Client σ) (m : Config) (f : MarkdownFile)
    (ancestorID parent : String) (w : World σ) : (String × Option String) × World σ :=
  if parent = "" then
    (("", none), w)
  else
    match mapGet w.ParentIndex parent with
    | some val => ((val, none), w)
    | none =>
      let r := doGetContent cl (parentQuery m parent) w
      match r.1.2 with
      | some err => (("", some ("Error checking for parent page: " ++ err)), r.2)
      | none =>
        match r.1.1 with
        | content :: _ =>
          ((content.ID, none), { r.2 with ParentIndex := mapSet r.2.ParentIndex parent content.ID })
        | [] =>
          let bp := parentStub m ancestorID parent
          let c := doCreateContent cl bp r.2
          match c.1.2 with
          | some err =>
            (("", some ("Error creating parent page " ++ f.Path ++ " for " ++ bp.Title ++ ": "
              ++ err)), c.2)
          | none =>
            ((c.1.1.ID, none), { c.2 with ParentIndex := mapSet c.2.ParentIndex parent c.1.1.ID })

/-- The loop of `FindOrCreateAncestors` (MarkdownFile.go:163-169), entered with the
current value of the named result `ancestorID`. -/
def ancestorsLoop {σ : Type} (cl : Client σ) (m : Config) (f : MarkdownFile) :
    List String → String → World σ → (String × Option String) × World σ
  | [], ancestorID, w => ((ancestorID, none), w)
  | parent :: rest, ancestorID, w =>
    let r := FindOrCreateAncestor cl m f ancestorID parent w
    match r.1.2 with
    | some err => ((r.1.1, some err), r.2)
    | none => ancestorsLoop cl m f rest r.1.1 r.2

/-- `FindOrCreateAncestors` (MarkdownFile.go:161-170). -/
def FindOrCreateAncestors {σ : Type} (cl : Client σ) (m : Config) (f : MarkdownFile)
    (w : World σ) : (String × Option String) × World σ :=
  ancestorsLoop cl m f f.Parents "" w

/-! ## Document synchroniser (MarkdownFile.go:24-158) -/

/-- Insertion of `new` before each character and at the end, at most `n` times:
`strings.Replace` with an empty `old`. -/
def insertChars (new : List Char) : Nat → List Char → List Char
  | 0, s => s
  | _ + 1, [] => new
  | n + 1, c :: cs => new ++ c :: insertChars new n cs

/-- Replacement of the first `n` non-overlapping occurrences of a non-empty
`old`, scanning left to right; `skip` characters of a matched occurrence are
still to be dropped. -/
def replaceChars (old new : List Char) : Nat → Nat → List Char → List Char
  | _, _, [] => []
  | n, skip + 1, _ :: cs => replaceChars old new n skip cs
  | 0, 0, c :: cs => c :: cs
  | n + 1, 0, c :: cs =>
    if old.isPrefixOf (c :: cs) then new ++ replaceChars old new n (old.length - 1) cs
    else c :: replaceChars old new (n + 1) 0 cs

/-- Go's `strings.Replace(s, old, new, n)`, after the standard library: `s` is
returned unchanged when `old == new` or `n == 0`; a negative `n` puts no limit
on the number of replacements. -/
def stringsReplace (s old new : String) (n : Int) : String :=
  if old = new ∨ n = 0 then s
  else
    let limit := if n < 0 then s.length + 1 else n.toNat
    if old.data = [] then String.mk (insertChars new.data limit s.data)
    else String.mk (replaceChars old.data new.data limit 0 s.data)

/-- `getTitle` (MarkdownFile.go:24-29). -/
def getTitle (f : MarkdownFile) (fm : FrontMatter) : String :=
  match fmGet fm "title" with
  | some val => sprintV val
  | none => stringsReplace f.Title "-" " " 0

/-- The collaborators of `Upload` that are not the store: `ioutil.ReadFile`,
the front-matter parser `mat.Parse` and `renderContent`. -/
structure Env where
  ReadFile : String → Except String String
  Parse : String → Except String (FrontMatter × String)
  renderContent : String → String

/-- The attribution sentence appended at MarkdownFile.go:52. -/
def attribution : String :=
  "<br /><p style=\"color: #ccc\"><i>Article imported from <a href=\"" ++
    "https://github.com/usertesting/ut_internal_documentation" ++
    "\">UT Internal Documentation</a>."

/-- The stored body: rendered content and footer (MarkdownFile.go:50-58). -/
def wikiContentOf (env : Env) (matter : FrontMatter) (body : String) : String :=
  let wikiContent := env.renderContent body
  let wikiContent := wikiContent ++ attribution
  let wikiContent :=
    match fmGet matter "date" with
    | some created_date =>
      wikiContent ++ ("Original date of creation: " ++ sprintS created_date ++ ".</i>")
    | none => wikiContent
  wikiContent ++ "</i></p>"

/-- The label list (MarkdownFile.go:60-71). -/
def labelsOf (matter : FrontMatter) : List Label :=
  let labels : List Label := [{ Name := "migrated-from-hugo" }]
  match fmGet matter "tags" with
  | some (Value.seq tagList) =>
    tagList.foldl (fun labels tag => labels ++ [{ Name := sprintV tag }]) labels
  | _ => labels

/-- The search for the leaf page (MarkdownFile.go:90-96). -/
def leafQuery (m : Config) (title : String) : GetContentQueryParameters :=
  { Title := title, Spacekey := m.Space, Limit := 1, Type_ := "page",
    Expand := ["version", "body.storage"] }

/-- The page sent on the update path (MarkdownFile.go:110-119). -/
def updatedPage (content : Content) (wikiContent ancestorID : String) : Content :=
  { content with
    VersionNumber := content.VersionNumber + 1
    BodyRepresentation := "storage"
    BodyValue := wikiContent
    Ancestors :=
      if ancestorID ≠ "" then content.Ancestors ++ [{ ID := ancestorID }] else content.Ancestors }

/-- The create request for the leaf page (MarkdownFile.go:130-141). -/
def leafCreate (m : Config) (f : MarkdownFile) (wikiContent ancestorID : String) :
    CreateContentBodyParameters :=
  { Title := f.Title
    Type_ := "page"
    SpaceKey := m.Space
    BodyRepresentation := "storage"
    BodyValue := wikiContent
    Ancestors := if ancestorID ≠ "" then [] ++ [{ ID := ancestorID }] else [] }

/-- The page sent by the update that follows a create (MarkdownFile.go:148-151). -/
def labelledPage (content : Content) (labels : List Label) : Content :=
  { content with
    Metadata := some { Labels := labels }
    VersionNumber := content.VersionNumber + 1 }

/-- Ancestor resolution inside `Upload` (MarkdownFile.go:101-106): skipped, with
`ancestorID` left empty, when `f.Parents` is empty. -/
def resolveParents {σ : Type} (cl : Client σ) (m : Config) (f : MarkdownFile)
    (w : World σ) : (String × Option String) × World σ :=
  if f.Parents.length > 0 then FindOrCreateAncestors cl m f w else (("", none), w)

/-- `Upload` (MarkdownFile.go:32-158).  The result is Go's `(url, err)`. -/
def Upload {σ : Type} (env : Env) (cl : Client σ) (m : Config) (f : MarkdownFile)
    (w : World σ) : (String × Option String) × World σ :=
  match env.ReadFile f.Path with
  | .error err => (("", some ("Could not open file " ++ f.Path ++ ":\n\t" ++ err)), w)
  | .ok dat =>
    match env.Parse dat with
    | .error err =>
      (("", some ("Could not parse front matter " ++ f.Path ++ ":\n\t" ++ err)), w)
    | .ok (matter, body) =>
      let wikiContent := wikiContentOf env matter body
      let labels := labelsOf matter
      let s := doGetContent cl (leafQuery m (getTitle f matter)) w
      match s.1.2 with
      | some err => (("", some ("Error checking for existing page: " ++ err)), s.2)
      | none =>
        let a := resolveParents cl m f s.2
        match a.1.2 with
        | some err => (("", some err), a.2)
        | none =>
          let ancestorID := a.1.1
          match s.1.1 with
          | content :: _ =>
            let u := doUpdateContent cl (updatedPage content wikiContent ancestorID) a.2
            match u.1.2 with
            | some err => (("", some ("Error updating content: " ++ err)), u.2)
            | none => ((m.Endpoint ++ u.1.1.Tinyui, none), u.2)
          | [] =>
            let c := doCreateContent cl (leafCreate m f wikiContent ancestorID) a.2
            match c.1.2 with
            | some err => (("", some ("Error creating page: " ++ err)), c.2)
            | none =>
              -- the error of this update is assigned and never tested (line 152)
              let u := doUpdateContent cl (labelledPage c.1.1 labels) c.2
              ((m.Endpoint ++ u.1.1.Tinyui, none), u.2)

/-! ## A reference store, to run the code on concrete inputs -/

/-- Zero value of `Content`. -/
def emptyContent : Content :=
  { ID := "", Title := "", SpaceKey := "", VersionNumber := 0, BodyRepresentation := "",
    BodyValue := "", Ancestors := [], Metadata := none, Tinyui := "" }

/-- An in-memory store: the pages, oldest first. -/
abbrev MemStore := List Content

/-- The page the in-memory store makes of a create request: the next free id,
version 1, and a short link derived from the id. -/
def memNewPage (bp : CreateContentBodyParameters) (s : MemStore) : Content :=
  { ID := "id" ++ toString s.length
    Title := bp.Title
    SpaceKey := bp.SpaceKey
    VersionNumber := 1
    BodyRepresentation := bp.BodyRepresentation
    BodyValue := bp.BodyValue
    Ancestors := bp.Ancestors
    Metadata := none
    Tinyui := "/x/id" ++ toString s.length }

/-- A well-behaved client over the in-memory store: search is by exact title
and space, create appends a page, update replaces the page with the same id. -/
def memClient : Client MemStore where
  GetContent q s :=
    (((s.filter (fun p => decide (p.Title = q.Title ∧ p.SpaceKey = q.Spacekey))).take q.Limit,
      none), s)
  CreateContent bp s := ((memNewPage bp s, none), s ++ [memNewPage bp s])
  UpdateContent c s := ((c, none), s.map (fun p => if p.ID = c.ID then c else p))

/-- The in-memory client with every update failing. -/
def updateFailingClient : Client MemStore :=
  { memClient with UpdateContent := fun _ s => ((emptyContent, some "update refused"), s) }

/-- The in-memory client with every search failing. -/
def searchFailingClient : Client MemStore :=
  { memClient with GetContent := fun _ s => (([], some "search refused"), s) }

/-- The in-memory client with every create failing. -/
def createFailingClient : Client MemStore :=
  { memClient with CreateContent := fun _ s => ((emptyContent, some "create refused"), s) }

/-- An environment in which every file reads as its own path, has the given
front matter, and renders to its source. -/
def constEnv (matter : FrontMatter) : Env :=
  { ReadFile := fun p => .ok p, Parse := fun dat => .ok (matter, dat), renderContent := id }

/-- The configuration used in the examples. -/
def exampleConfig : Config :=
  { Space := "DOC", Username := "u", Password := "p", Endpoint := "https://wiki", Debug := false }

/-- The initial world: empty store, empty `ParentIndex`, no call issued. -/
def emptyWorld : World MemStore :=
  { store := [], ParentIndex := [], calls := [] }

/-! ## Specification-side notions -/

/-- Whether a call is a search or a create issued for the page titled `name`. -/
def Call.isFor (name : String) : Call → Bool
  | .getContent q => decide (q.Title = name)
  | .createContent bp => decide (bp.Title = name)
  | .updateContent _ => false

/-- Whether a call is an update. -/
def Call.isUpdate : Call → Bool
  | .updateContent _ => true
  | _ => false

/-- The calls a run appended to the log `before`. -/
def newCalls (before after : List Call) : List Call :=
  after.drop before.length

/-- The id the specification gives a folder name: its cached id, else the id of
the first page found by the search, else the id of the newly created stub. -/
def specResolvedId {σ : Type} (cl : Client σ) (m : Config) (ancestorID name : String)
    (w : World σ) : String :=
  match mapGet w.ParentIndex name with
  | some val => val
  | none =>
    match (cl.GetContent (parentQuery m name) w.store).1.1 with
    | content :: _ => content.ID
    | [] =>
      (cl.CreateContent (parentStub m ancestorID name)
        (cl.GetContent (parentQuery m name) w.store).2).1.1.ID

/-- Whether a call is a search. -/
def Call.isSearch : Call → Bool
  | .getContent _ => true
  | _ => false

/-- Whether a call is a create. -/
def Call.isCreate : Call → Bool
  | .createContent _ => true
  | _ => false

/-- The stored body as the specification composes it: the rendered body, the
attribution sentence, the creation-date sentence exactly when there is a date,
and the closing tag. -/
def specBody (rendered : String) (date : Option String) : String :=
  match date with
  | some d => rendered ++ attribution ++ ("Original date of creation: " ++ d ++ ".") ++ "</i></p>"
  | none => rendered ++ attribution ++ "</i></p>"

/-! ## Example inputs -/

/-- The document used in the examples: `docs/a/my-page.md` under folder `a`. -/
def exampleFile : MarkdownFile :=
  { Path := "docs/a/my-page.md", Title := "my-page", Parents := ["a"], Ancestor := "" }

/-- The world after the ancestors of `exampleFile` were resolved once. -/
def resolvedWorld : World MemStore :=
  (FindOrCreateAncestors memClient exampleConfig exampleFile emptyWorld).2

/-- A document without ancestor folders. -/
def plainFile : MarkdownFile :=
  { Path := "docs/my-page.md", Title := "my-page", Parents := [], Ancestor := "" }

/-- A front matter that sets a title and two tags. -/
def titledMatter : FrontMatter :=
  [("title", Value.str "My Page"), ("tags", Value.seq [Value.str "a", Value.str "b"])]

/-- The world after `exampleFile`, without front matter, was uploaded once. -/
def uploadedWorld : World MemStore :=
  (Upload (constEnv []) memClient exampleConfig exampleFile emptyWorld).2

/-- A front matter with one tag and nothing else. -/
def taggedMatter : FrontMatter :=
  [("tags", Value.seq [Value.str "x"])]

/-- A document whose ancestor path is the single empty folder name. -/
def rootFile : MarkdownFile :=
  { Path := "docs/q.md", Title := "q", Parents := [""], Ancestor := "" }

/-- A document under the folders `a` and `b`. -/
def nestedFile : MarkdownFile :=
  { Path := "docs/a/b/q.md", Title := "q", Parents := ["a", "b"], Ancestor := "" }

/-- A document under the folder `zeta`. -/
def zetaFile : MarkdownFile :=
  { Path := "docs/zeta/q.md", Title := "q", Parents := ["zeta"], Ancestor := "" }

/-- A front matter with a creation date and nothing else. -/
def datedMatter : FrontMatter :=
  [("date", Value.str "2020-01-01")]

/-- An environment in which the one document reads as `# Hello`, has the given
front matter, and renders to its source. -/
def helloEnv (matter : FrontMatter) : Env :=
  { ReadFile := fun _ => .ok "# Hello", Parse := fun dat => .ok (matter, dat),
    renderContent := id }

/-- A document with the derived title `My Page`. -/
def myPageFile : MarkdownFile :=
  { Path := "docs/My Page.md", Title := "My Page", Parents := [], Ancestor := "" }

/-- A document under folder `a`, an empty folder name, and folder `b`. -/
def gapFile : MarkdownFile :=
  { Path := "docs/a//b/q.md", Title := "q", Parents := ["a", "", "b"], Ancestor := "" }

/-- A document under folder `a` and an empty folder name. -/
def trailingGapFile : MarkdownFile :=
  { Path := "docs/a//q.md", Title := "q", Parents := ["a", ""], Ancestor := "" }

/-- A world whose store already holds a page titled `a`; nothing is cached. -/
def worldWithA : World MemStore :=
  { store := [memNewPage (parentStub exampleConfig "" "a") []], ParentIndex := [], calls := [] }

/-- A world whose store already holds the page of `zetaFile`, titled `q`; nothing
is cached. -/
def worldWithLeaf : World MemStore :=
  { store := [memNewPage (leafCreate exampleConfig zetaFile "old body" "") []],
    ParentIndex := [], calls := [] }

/-! ## Basic facts -/

theorem mapGet_filter_ne (m : List (String × String)) (k k1 : String) :
    mapGet (m.filter (fun p => decide (p.1 ≠ k))) k1 = if k1 = k then none else mapGet m k1 := by
  induction m with
  | nil => simp [mapGet]
  | cons p rest ih =>
    obtain ⟨a, b⟩ := p
    by_cases ha : a = k
    · subst ha
      by_cases hk : k1 = a
      · subst hk
        simpa [List.filter, mapGet] using ih
      · have hk2 : ¬ a = k1 := fun h => hk h.symm
        simpa [List.filter, mapGet, hk, hk2] using ih
    · by_cases hk : k1 = k
      · subst hk
        have : ¬ a = k1 := ha
        simpa [List.filter, mapGet, ha] using ih
      · by_cases hak : a = k1
        · subst hak
          simp [List.filter, mapGet, ha]
        · simpa [List.filter, mapGet, ha, hk, hak] using ih

theorem mapGet_mapSet (m : List (String × String)) (k v k1 : String) :
    mapGet (mapSet m k v) k1 = if k1 = k then some v else mapGet m k1 := by
  unfold mapSet
  by_cases hk : k1 = k
  · subst hk
    simp [mapGet]
  · have hk2 : ¬ k = k1 := fun h => hk h.symm
    rw [mapGet, if_neg hk2, mapGet_filter_ne, if_neg hk, if_neg hk]

/-- Entries present before an assignment to a key that had none keep their value. -/
theorem mapGet_mapSet_of_absent (m : List (String × String)) (k v k1 v1 : String)
    (habs : mapGet m k = none) (h : mapGet m k1 = some v1) :
    mapGet (mapSet m k v) k1 = some v1 := by
  rw [mapGet_mapSet]
  by_cases hk : k1 = k
  · subst hk
    rw [habs] at h
    cases h
  · simp [hk, h]

/-- What one resolver step does to the log and to the cache: the calls it adds
are a search and possibly a create, both for `parent`, issued only when
`parent` is non-empty and has no cache entry; cache entries keep their value. -/
theorem FindOrCreateAncestor_effect {σ : Type} (cl : Client σ) (m : Config) (f : MarkdownFile)
    (ancestorID parent : String) (w : World σ) :
    ∃ new, (FindOrCreateAncestor cl m f ancestorID parent w).2.calls = w.calls ++ new ∧
      (∀ c ∈ new, parent ≠ "" ∧ mapGet w.ParentIndex parent = none ∧
        (c = Call.getContent (parentQuery m parent) ∨
          c = Call.createContent (parentStub m ancestorID parent))) ∧
      (∀ k v, mapGet w.ParentIndex k = some v →
        mapGet (FindOrCreateAncestor cl m f ancestorID parent w).2.ParentIndex k = some v) := by
  unfold FindOrCreateAncestor
  by_cases hp : parent = ""
  · exact ⟨[], by simp [hp], by simp, by simp [hp]⟩
  · cases hc : mapGet w.ParentIndex parent with
    | some val => exact ⟨[], by simp [hp], by simp, by simp [hp]⟩
    | none =>
      simp only [if_neg hp]
      cases he : (doGetContent cl (parentQuery m parent) w).1.2 with
      | some err =>
        refine ⟨[Call.getContent (parentQuery m parent)], by simp [doGetContent], ?_, ?_⟩
        · intro c hcm
          simp at hcm
          exact ⟨hp, trivial, Or.inl hcm⟩
        · intro k v hk
          simpa [doGetContent] using hk
      | none =>
        cases hl : (doGetContent cl (parentQuery m parent) w).1.1 with
        | cons content rest =>
          refine ⟨[Call.getContent (parentQuery m parent)], by simp [doGetContent], ?_, ?_⟩
          · intro c hcm
            simp at hcm
            exact ⟨hp, trivial, Or.inl hcm⟩
          · intro k v hk
            exact mapGet_mapSet_of_absent _ _ _ _ _ (by simpa [doGetContent] using hc)
              (by simpa [doGetContent] using hk)
        | nil =>
          cases hcr : (doCreateContent cl (parentStub m ancestorID parent)
              (doGetContent cl (parentQuery m parent) w).2).1.2 with
          | some err =>
            refine ⟨[Call.getContent (parentQuery m parent),
              Call.createContent (parentStub m ancestorID parent)],
              by simp [doGetContent, doCreateContent], ?_, ?_⟩
            · intro c hcm
              simp at hcm
              exact ⟨hp, trivial, hcm⟩
            · intro k v hk
              simpa [doGetContent, doCreateContent] using hk
          | none =>
            refine ⟨[Call.getContent (parentQuery m parent),
              Call.createContent (parentStub m ancestorID parent)],
              by simp [doGetContent, doCreateContent], ?_, ?_⟩
            · intro c hcm
              simp at hcm
              exact ⟨hp, trivial, hcm⟩
            · intro k v hk
              exact mapGet_mapSet_of_absent _ _ _ _ _
                (by simpa [doGetContent, doCreateContent] using hc)
                (by simpa [doGetContent, doCreateContent] using hk)

theorem ancestorsLoop_nil {σ : Type} (cl : Client σ) (m : Config) (f : MarkdownFile)
    (ancestorID : String) (w : World σ) :
    ancestorsLoop cl m f [] ancestorID w = ((ancestorID, none), w) := by
  simp [ancestorsLoop]

theorem ancestorsLoop_cons_err {σ : Type} (cl : Client σ) (m : Config) (f : MarkdownFile)
    (parent : String) (rest : List String) (ancestorID : String) (w : World σ) (err : String)
    (h : (FindOrCreateAncestor cl m f ancestorID parent w).1.2 = some err) :
    ancestorsLoop cl m f (parent :: rest) ancestorID w =
      (((FindOrCreateAncestor cl m f ancestorID parent w).1.1, some err),
        (FindOrCreateAncestor cl m f ancestorID parent w).2) := by
  simp only [ancestorsLoop, h]

theorem ancestorsLoop_cons_ok {σ : Type} (cl : Client σ) (m : Config) (f : MarkdownFile)
    (parent : String) (rest : List String) (ancestorID : String) (w : World σ)
    (h : (FindOrCreateAncestor cl m f ancestorID parent w).1.2 = none) :
    ancestorsLoop cl m f (parent :: rest) ancestorID w =
      ancestorsLoop cl m f rest (FindOrCreateAncestor cl m f ancestorID parent w).1.1
        (FindOrCreateAncestor cl m f ancestorID parent w).2 := by
  simp only [ancestorsLoop, h]

/-- What the resolver loop does to the log and to the cache. -/
theorem ancestorsLoop_effect {σ : Type} (cl : Client σ) (m : Config) (f : MarkdownFile)
    (path : List String) :
    ∀ (ancestorID : String) (w : World σ),
    ∃ new, (ancestorsLoop cl m f path ancestorID w).2.calls = w.calls ++ new ∧
      (∀ c ∈ new, ∃ parent ∈ path, ∃ prev, parent ≠ "" ∧ mapGet w.ParentIndex parent = none ∧
        (c = Call.getContent (parentQuery m parent) ∨
          c = Call.createContent (parentStub m prev parent))) ∧
      (∀ k v, mapGet w.ParentIndex k = some v →
        mapGet (ancestorsLoop cl m f path ancestorID w).2.ParentIndex k = some v) := by
  induction path with
  | nil =>
    intro ancestorID w
    exact ⟨[], by simp [ancestorsLoop], by simp, by simp [ancestorsLoop]⟩
  | cons parent rest ih =>
    intro ancestorID w
    obtain ⟨new1, hcalls1, hnew1, hmono1⟩ := FindOrCreateAncestor_effect cl m f ancestorID parent w
    have hfirst : ∀ c ∈ new1, ∃ p ∈ parent :: rest, ∃ prev, p ≠ "" ∧
        mapGet w.ParentIndex p = none ∧
        (c = Call.getContent (parentQuery m p) ∨ c = Call.createContent (parentStub m prev p)) := by
      intro c hc
      obtain ⟨h1, h2, h3⟩ := hnew1 c hc
      exact ⟨parent, List.mem_cons_self _ _, ancestorID, h1, h2, h3⟩
    cases he : (FindOrCreateAncestor cl m f ancestorID parent w).1.2 with
    | some err =>
      rw [ancestorsLoop_cons_err cl m f parent rest ancestorID w err he]
      exact ⟨new1, hcalls1, hfirst, hmono1⟩
    | none =>
      rw [ancestorsLoop_cons_ok cl m f parent rest ancestorID w he]
      obtain ⟨new2, hcalls2, hnew2, hmono2⟩ :=
        ih (FindOrCreateAncestor cl m f ancestorID parent w).1.1
          (FindOrCreateAncestor cl m f ancestorID parent w).2
      refine ⟨new1 ++ new2, ?_, ?_, ?_⟩
      · simp only [hcalls2, hcalls1, List.append_assoc]
      · intro c hc
        rcases List.mem_append.mp hc with h | h
        · exact hfirst c h
        · obtain ⟨p, hp, prev, h1, h2, h3⟩ := hnew2 c h
          refine ⟨p, List.mem_cons_of_mem _ hp, prev, h1, ?_, h3⟩
          cases hw : mapGet w.ParentIndex p with
          | none => rfl
          | some v =>
            rw [hmono1 p v hw] at h2
            cases h2
      · intro k v hk
        exact hmono2 k v (hmono1 k v hk)

theorem newCalls_append (before new : List Call) : newCalls before (before ++ new) = new := by
  simp [newCalls]

/-- The empty name never becomes a key of `ParentIndex`: one resolver step. -/
theorem FindOrCreateAncestor_no_empty_key {σ : Type} (cl : Client σ) (m : Config)
    (f : MarkdownFile) (ancestorID parent : String) (w : World σ)
    (hwf : mapGet w.ParentIndex "" = none) :
    mapGet (FindOrCreateAncestor cl m f ancestorID parent w).2.ParentIndex "" = none := by
  unfold FindOrCreateAncestor
  by_cases hp : parent = ""
  · simpa [hp] using hwf
  · have hp2 : ¬ "" = parent := fun h => hp h.symm
    simp only [if_neg hp]
    split
    · exact hwf
    · split
      · simpa [doGetContent] using hwf
      · split
        · simpa [doGetContent, mapGet_mapSet, hp2] using hwf
        · split
          · simpa [doGetContent, doCreateContent] using hwf
          · simpa [doGetContent, doCreateContent, mapGet_mapSet, hp2] using hwf

/-- The empty name never becomes a key of `ParentIndex`: the resolver loop. -/
theorem ancestorsLoop_no_empty_key {σ : Type} (cl : Client σ) (m : Config) (f : MarkdownFile)
    (path : List String) :
    ∀ (ancestorID : String) (w : World σ), mapGet w.ParentIndex "" = none →
      mapGet (ancestorsLoop cl m f path ancestorID w).2.ParentIndex "" = none := by
  induction path with
  | nil =>
    intro ancestorID w hwf
    simpa [ancestorsLoop] using hwf
  | cons parent rest ih =>
    intro ancestorID w hwf
    have h1 := FindOrCreateAncestor_no_empty_key cl m f ancestorID parent w hwf
    cases he : (FindOrCreateAncestor cl m f ancestorID parent w).1.2 with
    | some err =>
      rw [ancestorsLoop_cons_err cl m f parent rest ancestorID w err he]
      exact h1
    | none =>
      rw [ancestorsLoop_cons_ok cl m f parent rest ancestorID w he]
      exact ih _ _ h1

/-- The only writes of `Upload` to `ParentIndex` are those of its ancestor
resolution, which starts from the map `Upload` was entered with. -/
theorem Upload_ParentIndex {σ : Type} (env : Env) (cl : Client σ) (m : Config)
    (f : MarkdownFile) (w : World σ) :
    (Upload env cl m f w).2.ParentIndex = w.ParentIndex ∨
    ∃ w1 : World σ, w1.ParentIndex = w.ParentIndex ∧
      (Upload env cl m f w).2.ParentIndex = (resolveParents cl m f w1).2.ParentIndex := by
  cases hr : env.ReadFile f.Path with
  | error e => exact Or.inl (by simp [Upload, hr])
  | ok dat =>
    cases hp : env.Parse dat with
    | error e => exact Or.inl (by simp [Upload, hr, hp])
    | ok mb =>
      obtain ⟨matter, body⟩ := mb
      cases hse : (doGetContent cl (leafQuery m (getTitle f matter)) w).1.2 with
      | some err => exact Or.inl (by simp only [Upload, hr, hp, hse]; simp [doGetContent])
      | none =>
        refine Or.inr ⟨(doGetContent cl (leafQuery m (getTitle f matter)) w).2,
          by simp [doGetContent], ?_⟩
        cases hae : (resolveParents cl m f
            (doGetContent cl (leafQuery m (getTitle f matter)) w).2).1.2 with
        | some err => simp [Upload, hr, hp, hse, hae]
        | none =>
          cases hl : (doGetContent cl (leafQuery m (getTitle f matter)) w).1.1 with
          | cons content rest =>
            simp only [Upload, hr, hp, hse, hae, hl]
            split <;> simp [doUpdateContent]
          | nil =>
            simp only [Upload, hr, hp, hse, hae, hl]
            split <;> simp [doUpdateContent, doCreateContent]

/-- The empty name never becomes a key of `ParentIndex`: a whole `Upload`.  With
the empty initial map this makes the absence of that key an invariant of every
run of the program. -/
theorem Upload_no_empty_key {σ : Type} (env : Env) (cl : Client σ) (m : Config)
    (f : MarkdownFile) (w : World σ) (hwf : mapGet w.ParentIndex "" = none) :
    mapGet (Upload env cl m f w).2.ParentIndex "" = none := by
  rcases Upload_ParentIndex env cl m f w with h | ⟨w1, h1, h⟩
  · rw [h]
    exact hwf
  · rw [h]
    unfold resolveParents
    split
    · exact ancestorsLoop_no_empty_key cl m f f.Parents "" w1 (by rw [h1]; exact hwf)
    · rw [h1]
      exact hwf

/-- C4 (ancestor memoization).  In a `ParentIndex` reached by the program (it starts
empty and the empty name is never entered, see `Upload_no_empty_key`), a
folder name that is a key resolves to its cached id with the world unchanged:
no search, no create, same cache.  Hence for any second document, resolving its
path issues no search and no create for that name and the name keeps its id. -/
theorem FindOrCreateAncestor_memoized {σ : Type} (cl : Client σ) (m : Config)
    (f : MarkdownFile) (ancestorID parent id : String) (w : World σ)
    (hwf : mapGet w.ParentIndex "" = none)
    (hc : mapGet w.ParentIndex parent = some id) :
    FindOrCreateAncestor cl m f ancestorID parent w = ((id, none), w) ∧
    ∀ f2 : MarkdownFile,
      (∀ c ∈ newCalls w.calls (FindOrCreateAncestors cl m f2 w).2.calls,
        Call.isFor parent c = false) ∧
      mapGet (FindOrCreateAncestors cl m f2 w).2.ParentIndex parent = some id := by
  have hp : parent ≠ "" := by
    intro h
    rw [h, hwf] at hc
    cases hc
  refine ⟨by simp [FindOrCreateAncestor, hp, hc], fun f2 => ?_⟩
  obtain ⟨new, hcalls, hnew, hmono⟩ := ancestorsLoop_effect cl m f2 f2.Parents "" w
  refine ⟨?_, hmono parent id hc⟩
  intro c hcm
  unfold FindOrCreateAncestors at hcm
  rw [hcalls, newCalls_append] at hcm
  obtain ⟨p, -, prev, -, hnone, hor⟩ := hnew c hcm
  have hne : p ≠ parent := by
    intro h
    rw [h, hc] at hnone
    cases hnone
  rcases hor with h | h
  · simp [h, Call.isFor, parentQuery, hne]
  · simp [h, Call.isFor, parentStub, hne]

/-- C4 at a concrete input: after one resolution of folder `a`, a second one
returns the cached `id0` and leaves the world as it was. -/
theorem FindOrCreateAncestor_memoized_witness :
    mapGet resolvedWorld.ParentIndex "" = none ∧
    mapGet resolvedWorld.ParentIndex "a" = some "id0" ∧
    FindOrCreateAncestor memClient exampleConfig exampleFile "" "a" resolvedWorld =
      (("id0", none), resolvedWorld) :=
  ⟨by decide, by decide,
    (FindOrCreateAncestor_memoized memClient exampleConfig exampleFile "" "a" "id0" resolvedWorld
      (by decide) (by decide)).1⟩

/-- C1.  The error of the update that follows a create is swallowed: with a store
whose updates fail, a new document is searched, created and updated, the update
returns an error, and `Upload` returns a URL and a nil error. -/
theorem Upload_swallows_label_update_error :
    ∃ q bp c,
      (Upload (constEnv []) updateFailingClient exampleConfig plainFile emptyWorld).2.calls =
        [Call.getContent q, Call.createContent bp, Call.updateContent c] ∧
      (updateFailingClient.UpdateContent c
        (Upload (constEnv []) updateFailingClient exampleConfig plainFile emptyWorld).2.store).1.2 =
        some "update refused" ∧
      (Upload (constEnv []) updateFailingClient exampleConfig plainFile emptyWorld).1 =
        ("https://wiki", none) :=
  ⟨_, _, _, rfl, rfl, rfl⟩

/-- C3.  With front-matter title `My Page` and derived title `my-page`, the leaf
search is issued for the effective title `My Page` and the create request is
titled `my-page`. -/
theorem Upload_create_title_is_derived_title :
    getTitle plainFile titledMatter = "My Page" ∧
    ∃ q bp rest,
      (Upload (constEnv titledMatter) memClient exampleConfig plainFile emptyWorld).2.calls =
        Call.getContent q :: Call.createContent bp :: rest ∧
      q.Title = "My Page" ∧ bp.Title = "my-page" :=
  ⟨by decide, _, _, _, rfl, rfl, rfl⟩

/-- C2.  The in-memory store finds by title the page created under that title,
yet the second upload of an unchanged document with front-matter title
`My Page` takes the create path again: it issues a search, a create and an
update, leaves two pages titled `my-page`, and returns another URL. -/
theorem Upload_twice_with_front_matter_title_creates_twice :
    (memClient.GetContent (leafQuery exampleConfig "my-page")
      (Upload (constEnv titledMatter) memClient exampleConfig plainFile emptyWorld).2.store).1.1.map
        (fun p => p.Title) = ["my-page"] ∧
    (Upload (constEnv titledMatter) memClient exampleConfig plainFile emptyWorld).1 =
      ("https://wiki/x/id0", none) ∧
    (Upload (constEnv titledMatter) memClient exampleConfig plainFile
      (Upload (constEnv titledMatter) memClient exampleConfig plainFile emptyWorld).2).1 =
      ("https://wiki/x/id1", none) ∧
    (Upload (constEnv titledMatter) memClient exampleConfig plainFile
      (Upload (constEnv titledMatter) memClient exampleConfig plainFile emptyWorld).2).2.store.map
        (fun p => p.Title) = ["my-page", "my-page"] ∧
    ∃ q bp c,
      newCalls (Upload (constEnv titledMatter) memClient exampleConfig plainFile emptyWorld).2.calls
        (Upload (constEnv titledMatter) memClient exampleConfig plainFile
          (Upload (constEnv titledMatter) memClient exampleConfig plainFile emptyWorld).2).2.calls =
        [Call.getContent q, Call.createContent bp, Call.updateContent c] ∧
      q.Title = "My Page" ∧ bp.Title = "my-page" :=
  ⟨by decide, by decide, by decide, by decide, _, _, _, rfl, rfl, rfl⟩

/-- Without a front-matter title the same two uploads behave as a re-sync should:
the second one issues a search and one update, sends version 3 after reading
version 2, and returns the URL of the first. -/
theorem Upload_twice_without_front_matter_title_updates :
    (Upload (constEnv []) memClient exampleConfig plainFile emptyWorld).1 =
      ("https://wiki/x/id0", none) ∧
    (Upload (constEnv []) memClient exampleConfig plainFile
      (Upload (constEnv []) memClient exampleConfig plainFile emptyWorld).2).1 =
      ("https://wiki/x/id0", none) ∧
    ∃ q c,
      newCalls (Upload (constEnv []) memClient exampleConfig plainFile emptyWorld).2.calls
        (Upload (constEnv []) memClient exampleConfig plainFile
          (Upload (constEnv []) memClient exampleConfig plainFile emptyWorld).2).2.calls =
        [Call.getContent q, Call.updateContent c] ∧
      c.VersionNumber = 3 :=
  ⟨by decide, by decide, _, _, rfl, rfl⟩

/-- The resolution inside `Upload` only appends, to the log, searches and stub
creates for folder names of the path. -/
theorem resolveParents_calls {σ : Type} (cl : Client σ) (m : Config) (f : MarkdownFile)
    (w : World σ) :
    (resolveParents cl m f w).2.calls =
      w.calls ++ newCalls w.calls (resolveParents cl m f w).2.calls ∧
    ∀ c ∈ newCalls w.calls (resolveParents cl m f w).2.calls,
      ∃ parent ∈ f.Parents, ∃ prev,
        c = Call.getContent (parentQuery m parent) ∨
          c = Call.createContent (parentStub m prev parent) := by
  unfold resolveParents
  by_cases hp : f.Parents.length > 0
  · obtain ⟨new, hcalls, hnew, -⟩ := ancestorsLoop_effect cl m f f.Parents "" w
    simp only [if_pos hp, FindOrCreateAncestors]
    rw [hcalls, newCalls_append]
    refine ⟨rfl, ?_⟩
    intro c hc
    obtain ⟨p, hp, prev, -, -, hor⟩ := hnew c hc
    exact ⟨p, hp, prev, hor⟩
  · simp [if_neg hp, newCalls]

/-- The loop at MarkdownFile.go:65-69 appends one label per tag, in order. -/
theorem foldl_labels (tagList : List Value) :
    ∀ labels : List Label,
      tagList.foldl (fun labels tag => labels ++ [{ Name := sprintV tag }]) labels =
        labels ++ tagList.map (fun tag => { Name := sprintV tag }) := by
  induction tagList with
  | nil => intro labels; simp
  | cons t rest ih => intro labels; simp [ih]

/-- The label list: the marker label, then one label per tag when `tags` is a
sequence. -/
theorem labelsOf_eq (matter : FrontMatter) :
    labelsOf matter = { Name := "migrated-from-hugo" } ::
      (match fmGet matter "tags" with
      | some (Value.seq tagList) => tagList.map (fun tag => { Name := sprintV tag })
      | _ => []) := by
  unfold labelsOf
  cases h : fmGet matter "tags" with
  | none => rfl
  | some v =>
    cases v with
    | seq xs => simp only [foldl_labels]; rfl
    | _ => rfl

/-- The create path of `Upload`, unfolded. -/
theorem Upload_create_path {σ : Type} (env : Env) (cl : Client σ) (m : Config) (f : MarkdownFile)
    (w w1 w2 w3 : World σ) (dat body ancestorID : String) (matter : FrontMatter)
    (created : Content)
    (hread : env.ReadFile f.Path = .ok dat) (hparse : env.Parse dat = .ok (matter, body))
    (hs : doGetContent cl (leafQuery m (getTitle f matter)) w = (([], none), w1))
    (ha : resolveParents cl m f w1 = ((ancestorID, none), w2))
    (hc : doCreateContent cl (leafCreate m f (wikiContentOf env matter body) ancestorID) w2 =
      ((created, none), w3)) :
    Upload env cl m f w =
      ((m.Endpoint ++ (doUpdateContent cl (labelledPage created (labelsOf matter)) w3).1.1.Tinyui,
        none), (doUpdateContent cl (labelledPage created (labelsOf matter)) w3).2) := by
  simp [Upload, hread, hparse, hs, ha, hc]

/-- The update path of `Upload`, unfolded. -/
theorem Upload_update_path {σ : Type} (env : Env) (cl : Client σ) (m : Config) (f : MarkdownFile)
    (w w1 w2 : World σ) (dat body ancestorID : String) (matter : FrontMatter)
    (content : Content) (rest : List Content)
    (hread : env.ReadFile f.Path = .ok dat) (hparse : env.Parse dat = .ok (matter, body))
    (hs : doGetContent cl (leafQuery m (getTitle f matter)) w = ((content :: rest, none), w1))
    (ha : resolveParents cl m f w1 = ((ancestorID, none), w2)) :
    Upload env cl m f w =
      (match (doUpdateContent cl
          (updatedPage content (wikiContentOf env matter body) ancestorID) w2).1.2 with
      | some err => (("", some ("Error updating content: " ++ err)),
          (doUpdateContent cl
            (updatedPage content (wikiContentOf env matter body) ancestorID) w2).2)
      | none => ((m.Endpoint ++ (doUpdateContent cl
            (updatedPage content (wikiContentOf env matter body) ancestorID) w2).1.1.Tinyui,
          none),
          (doUpdateContent cl
            (updatedPage content (wikiContentOf env matter body) ancestorID) w2).2)) := by
  simp [Upload, hread, hparse, hs, ha]

/-- C5 (create-path label application).  When the leaf search finds no page and the
resolution and the leaf create succeed, the calls of `Upload` are the leaf
search, the resolver's searches and stub creates, one create for the leaf and
then one update.  The page updated is the created page with its version number
raised by one and its labels set to the marker label followed by one label per
front-matter tag in order when `tags` is a sequence, and to the marker label
alone otherwise. -/
theorem Upload_create_path_labels {σ : Type} (env : Env) (cl : Client σ) (m : Config)
    (f : MarkdownFile) (w w1 w2 w3 : World σ) (dat body ancestorID : String)
    (matter : FrontMatter) (created : Content)
    (hread : env.ReadFile f.Path = .ok dat) (hparse : env.Parse dat = .ok (matter, body))
    (hs : doGetContent cl (leafQuery m (getTitle f matter)) w = (([], none), w1))
    (ha : resolveParents cl m f w1 = ((ancestorID, none), w2))
    (hc : doCreateContent cl (leafCreate m f (wikiContentOf env matter body) ancestorID) w2 =
      ((created, none), w3)) :
    (Upload env cl m f w).2.calls =
      w.calls ++ [Call.getContent (leafQuery m (getTitle f matter))] ++
        newCalls w1.calls w2.calls ++
        [Call.createContent (leafCreate m f (wikiContentOf env matter body) ancestorID),
          Call.updateContent
            { created with
              VersionNumber := created.VersionNumber + 1
              Metadata := some
                { Labels := { Name := "migrated-from-hugo" } ::
                    (match fmGet matter "tags" with
                    | some (Value.seq tagList) =>
                      tagList.map (fun tag => { Name := sprintV tag })
                    | _ => []) } }] ∧
    ∀ c ∈ newCalls w1.calls w2.calls,
      ∃ parent ∈ f.Parents, ∃ prev,
        c = Call.getContent (parentQuery m parent) ∨
          c = Call.createContent (parentStub m prev parent) := by
  have hres := resolveParents_calls cl m f w1
  rw [ha] at hres
  have hw1 : w1.calls = w.calls ++ [Call.getContent (leafQuery m (getTitle f matter))] := by
    have := congrArg (fun r => r.2.calls) hs
    simpa [doGetContent] using this.symm
  have hw3 : w3.calls = w2.calls ++
      [Call.createContent (leafCreate m f (wikiContentOf env matter body) ancestorID)] := by
    have := congrArg (fun r => r.2.calls) hc
    simpa [doCreateContent] using this.symm
  have hlabels := labelsOf_eq matter
  refine ⟨?_, hres.2⟩
  rw [Upload_create_path env cl m f w w1 w2 w3 dat body ancestorID matter created hread hparse
    hs ha hc]
  simp only [doUpdateContent, hw3]
  rw [hres.1, hw1, hlabels]
  simp [labelledPage, newCalls]

/-- C5 at a concrete input: a new document under folder `a` with tags `a`, `b`. -/
theorem Upload_create_path_labels_witness :
    ∃ q s1 c1 bp sent,
      (Upload (constEnv titledMatter) memClient exampleConfig exampleFile emptyWorld).2.calls =
        [Call.getContent q, Call.getContent s1, Call.createContent c1, Call.createContent bp,
          Call.updateContent sent] ∧
      sent.VersionNumber = 2 ∧
      sent.Metadata = some
        { Labels := [{ Name := "migrated-from-hugo" }, { Name := "a" }, { Name := "b" }] } :=
  ⟨_, _, _, _, _,
    (Upload_create_path_labels (constEnv titledMatter) memClient exampleConfig exampleFile
      emptyWorld _ _ _ _ _ _ titledMatter _ rfl rfl rfl rfl rfl).1, rfl, rfl⟩

/-- A failed resolution ends `Upload` with the resolver's error. -/
theorem Upload_resolve_error {σ : Type} (env : Env) (cl : Client σ) (m : Config)
    (f : MarkdownFile) (w w1 w2 : World σ) (dat body ancestorID err : String)
    (matter : FrontMatter) (found : List Content)
    (hread : env.ReadFile f.Path = .ok dat) (hparse : env.Parse dat = .ok (matter, body))
    (hs : doGetContent cl (leafQuery m (getTitle f matter)) w = ((found, none), w1))
    (ha : resolveParents cl m f w1 = ((ancestorID, some err), w2)) :
    Upload env cl m f w = (("", some err), w2) := by
  simp [Upload, hread, hparse, hs, ha]

/-- The calls of the update path of `Upload` and the page it sends. -/
theorem Upload_update_path_calls {σ : Type} (env : Env) (cl : Client σ) (m : Config)
    (f : MarkdownFile) (w w1 w2 : World σ) (dat body ancestorID : String)
    (matter : FrontMatter) (content : Content) (rest : List Content)
    (hread : env.ReadFile f.Path = .ok dat) (hparse : env.Parse dat = .ok (matter, body))
    (hs : doGetContent cl (leafQuery m (getTitle f matter)) w = ((content :: rest, none), w1))
    (ha : resolveParents cl m f w1 = ((ancestorID, none), w2)) :
    (Upload env cl m f w).2.calls =
      w.calls ++ [Call.getContent (leafQuery m (getTitle f matter))] ++
        newCalls w1.calls w2.calls ++
        [Call.updateContent
          { content with
            VersionNumber := content.VersionNumber + 1
            BodyRepresentation := "storage"
            BodyValue := wikiContentOf env matter body
            Ancestors :=
              content.Ancestors ++ (if ancestorID = "" then [] else [{ ID := ancestorID }]) }] ∧
    ∀ c ∈ newCalls w1.calls w2.calls,
      ∃ parent ∈ f.Parents, ∃ prev,
        c = Call.getContent (parentQuery m parent) ∨
          c = Call.createContent (parentStub m prev parent) := by
  have hres := resolveParents_calls cl m f w1
  rw [ha] at hres
  have hw1 : w1.calls = w.calls ++ [Call.getContent (leafQuery m (getTitle f matter))] := by
    have := congrArg (fun r => r.2.calls) hs
    simpa [doGetContent] using this.symm
  have hpage : updatedPage content (wikiContentOf env matter body) ancestorID =
      { content with
        VersionNumber := content.VersionNumber + 1
        BodyRepresentation := "storage"
        BodyValue := wikiContentOf env matter body
        Ancestors :=
          content.Ancestors ++ (if ancestorID = "" then [] else [{ ID := ancestorID }]) } := by
    unfold updatedPage
    by_cases h : ancestorID = "" <;> simp [h]
  refine ⟨?_, hres.2⟩
  rw [Upload_update_path env cl m f w w1 w2 dat body ancestorID matter content rest hread hparse
    hs ha]
  have hcalls : ∀ u : (Content × Option String) × World σ,
      (match u.1.2 with
        | some err => ((("", some ("Error updating content: " ++ err)) : String × Option String),
            u.2)
        | none => ((m.Endpoint ++ u.1.1.Tinyui, none), u.2)).2.calls = u.2.calls := by
    intro u
    split <;> rfl
  rw [hcalls]
  simp only [doUpdateContent]
  rw [hres.1, hw1, hpage]
  simp [newCalls]

/-- The attribution sentence, as one string. -/
theorem attribution_eq :
    attribution =
      "<br /><p style=\"color: #ccc\"><i>Article imported from <a href=\"https://github.com/usertesting/ut_internal_documentation\">UT Internal Documentation</a>." := by
  set_option maxRecDepth 100000 in decide

/-- The stored body, character for character: the rendered content, the
attribution sentence, the creation-date sentence with its own closing `i` tag
when the front matter has a date, and the closing tag. -/
theorem wikiContentOf_spelled (env : Env) (matter : FrontMatter) (body : String) :
    wikiContentOf env matter body =
      env.renderContent body ++
        "<br /><p style=\"color: #ccc\"><i>Article imported from <a href=\"https://github.com/usertesting/ut_internal_documentation\">UT Internal Documentation</a>." ++
        (match fmGet matter "date" with
        | some created_date => "Original date of creation: " ++ sprintS created_date ++ ".</i>"
        | none => "") ++
        "</i></p>" := by
  unfold wikiContentOf
  rw [attribution_eq]
  cases fmGet matter "date" with
  | none => simp
  | some d => simp [String.append_assoc]

/-- C6, the claim at a leaf page that is found while the resolution fails: the leaf
search returns one page, the create of the stub for folder `zeta` fails,
`Upload` returns the error of the resolver and issues no update call. -/
theorem Upload_found_leaf_failed_resolution_no_update :
    ((createFailingClient.GetContent (leafQuery exampleConfig (getTitle zetaFile []))
      worldWithLeaf.store).1.1.map (fun p => p.Title) = ["q"]) ∧
    (Upload (constEnv []) createFailingClient exampleConfig zetaFile worldWithLeaf).1 =
      ("", some "Error creating parent page docs/zeta/q.md for zeta: create refused") ∧
    (Upload (constEnv []) createFailingClient exampleConfig zetaFile
      worldWithLeaf).2.calls.countP Call.isUpdate = 0 ∧
    (Upload (constEnv []) createFailingClient exampleConfig zetaFile
      worldWithLeaf).2.calls.length = 3 :=
  ⟨by decide, by decide, by decide, by decide⟩

/-- C6 (update path), amended.  When the leaf search finds a page and the ancestor
resolution succeeds, the calls of `Upload` are the leaf search, the resolver's
searches and stub creates, and then one update and nothing else: no create for
the leaf.  The page updated is the first page found with its version number
raised by one, its storage body replaced by the rendered content followed by
the footer (attribution sentence, creation-date sentence when there is a date,
closing tag), and its ancestors kept, with the resolved id appended at the end
when that id is not empty. -/
theorem Upload_update_path_page {σ : Type} (env : Env) (cl : Client σ) (m : Config)
    (f : MarkdownFile) (w w1 w2 : World σ) (dat body ancestorID : String)
    (matter : FrontMatter) (content : Content) (rest : List Content)
    (hread : env.ReadFile f.Path = .ok dat) (hparse : env.Parse dat = .ok (matter, body))
    (hs : doGetContent cl (leafQuery m (getTitle f matter)) w = ((content :: rest, none), w1))
    (ha : resolveParents cl m f w1 = ((ancestorID, none), w2)) :
    (Upload env cl m f w).2.calls =
      w.calls ++ [Call.getContent (leafQuery m (getTitle f matter))] ++
        newCalls w1.calls w2.calls ++
        [Call.updateContent
          { content with
            VersionNumber := content.VersionNumber + 1
            BodyRepresentation := "storage"
            BodyValue :=
              env.renderContent body ++
                "<br /><p style=\"color: #ccc\"><i>Article imported from <a href=\"https://github.com/usertesting/ut_internal_documentation\">UT Internal Documentation</a>." ++
                (match fmGet matter "date" with
                | some created_date =>
                  "Original date of creation: " ++ sprintS created_date ++ ".</i>"
                | none => "") ++
                "</i></p>"
            Ancestors :=
              content.Ancestors ++ (if ancestorID = "" then [] else [{ ID := ancestorID }]) }] ∧
    ∀ c ∈ newCalls w1.calls w2.calls,
      ∃ parent ∈ f.Parents, ∃ prev,
        c = Call.getContent (parentQuery m parent) ∨
          c = Call.createContent (parentStub m prev parent) := by
  rw [← wikiContentOf_spelled]
  exact Upload_update_path_calls env cl m f w w1 w2 dat body ancestorID matter content rest hread
    hparse hs ha

/-- C6, amended, at a concrete input: the second upload of a document under folder
`a`, with a creation date in its front matter. -/
theorem Upload_update_path_page_witness :
    ∃ q sent,
      (Upload (constEnv datedMatter) memClient exampleConfig exampleFile uploadedWorld).2.calls =
        uploadedWorld.calls ++ [Call.getContent q, Call.updateContent sent] ∧
      sent.ID = "id1" ∧ sent.VersionNumber = 3 ∧
      sent.BodyValue =
        "docs/a/my-page.md<br /><p style=\"color: #ccc\"><i>Article imported from <a href=\"https://github.com/usertesting/ut_internal_documentation\">UT Internal Documentation</a>.Original date of creation: 2020-01-01.</i></i></p>" ∧
      sent.Ancestors = [{ ID := "id0" }, { ID := "id0" }] :=
  ⟨_, _,
    ((Upload_update_path_page (constEnv datedMatter) memClient exampleConfig exampleFile
      uploadedWorld _ _ _ _ _ datedMatter _ _ rfl rfl rfl rfl).1).trans rfl, rfl, rfl,
    by set_option maxRecDepth 100000 in decide, rfl⟩

/-- The effective title depends on the `title` entry of the front matter only. -/
theorem getTitle_congr (f : MarkdownFile) (matter1 matter2 : FrontMatter)
    (h : fmGet matter1 "title" = fmGet matter2 "title") :
    getTitle f matter1 = getTitle f matter2 := by
  simp [getTitle, h]

/-- The stored body depends on the `date` entry of the front matter only. -/
theorem wikiContentOf_congr (env : Env) (matter1 matter2 : FrontMatter) (body : String)
    (h : fmGet matter1 "date" = fmGet matter2 "date") :
    wikiContentOf env matter1 body = wikiContentOf env matter2 body := by
  simp [wikiContentOf, h]

/-- C7 (update-path label omission).  When the leaf search finds a page, every update
call that `Upload` issues carries the metadata (labels) of the found page,
whatever the front matter says.  A second version of the document whose front
matter differs in `tags` only gives the same result, the same store and the
same calls, so the same update request. -/
theorem Upload_update_path_keeps_labels {σ : Type} (env1 env2 : Env) (cl : Client σ)
    (m : Config) (f : MarkdownFile) (w w1 : World σ) (dat1 dat2 body : String)
    (matter1 matter2 : FrontMatter) (content : Content) (rest : List Content)
    (hread1 : env1.ReadFile f.Path = .ok dat1) (hparse1 : env1.Parse dat1 = .ok (matter1, body))
    (hread2 : env2.ReadFile f.Path = .ok dat2) (hparse2 : env2.Parse dat2 = .ok (matter2, body))
    (hrender : env2.renderContent = env1.renderContent)
    (hsame : ∀ k, k ≠ "tags" → fmGet matter2 k = fmGet matter1 k)
    (hs : doGetContent cl (leafQuery m (getTitle f matter1)) w = ((content :: rest, none), w1)) :
    (∀ c, Call.updateContent c ∈ newCalls w.calls (Upload env1 cl m f w).2.calls →
      c.Metadata = content.Metadata) ∧
    Upload env2 cl m f w = Upload env1 cl m f w := by
  have htitle : getTitle f matter2 = getTitle f matter1 :=
    getTitle_congr f matter2 matter1 (hsame "title" (by decide))
  have hbody : wikiContentOf env2 matter2 body = wikiContentOf env1 matter1 body := by
    have h := wikiContentOf_congr env2 matter2 matter1 body (hsame "date" (by decide))
    rw [h]
    simp [wikiContentOf, hrender]
  have hs2 : doGetContent cl (leafQuery m (getTitle f matter2)) w =
      ((content :: rest, none), w1) := by
    rw [htitle]
    exact hs
  have hw1 : w1.calls = w.calls ++ [Call.getContent (leafQuery m (getTitle f matter1))] := by
    have := congrArg (fun r => r.2.calls) hs
    simpa [doGetContent] using this.symm
  have hres := resolveParents_calls cl m f w1
  rcases hra : resolveParents cl m f w1 with ⟨⟨ancestorID, oerr⟩, w2⟩
  rw [hra] at hres
  obtain ⟨new, hw2, hnew⟩ : ∃ new, w2.calls = w1.calls ++ new ∧
      ∀ c ∈ new, ∃ parent ∈ f.Parents, ∃ prev,
        c = Call.getContent (parentQuery m parent) ∨
          c = Call.createContent (parentStub m prev parent) := ⟨_, hres.1, hres.2⟩
  cases oerr with
  | some err =>
    rw [Upload_resolve_error env1 cl m f w w1 w2 dat1 body ancestorID err matter1 _ hread1
      hparse1 hs hra,
      Upload_resolve_error env2 cl m f w w1 w2 dat2 body ancestorID err matter2 _ hread2
      hparse2 hs2 hra]
    refine ⟨?_, rfl⟩
    intro c hc
    simp only at hc
    rw [hw2, hw1] at hc
    simp [newCalls] at hc
    obtain ⟨p, -, prev, hor⟩ := hnew _ hc
    rcases hor with h | h <;> cases h
  | none =>
    have h1 := Upload_update_path_calls env1 cl m f w w1 w2 dat1 body ancestorID matter1 content
      rest hread1 hparse1 hs hra
    rw [Upload_update_path env2 cl m f w w1 w2 dat2 body ancestorID matter2 content rest hread2
      hparse2 hs2 hra, hbody,
      ← Upload_update_path env1 cl m f w w1 w2 dat1 body ancestorID matter1 content rest hread1
      hparse1 hs hra]
    refine ⟨?_, rfl⟩
    intro c hc
    rw [h1.1] at hc
    simp [newCalls] at hc
    rcases hc with hc | hc
    · obtain ⟨p, -, prev, hor⟩ := h1.2 _ hc
      rcases hor with h | h <;> cases h
    · rw [hc]

/-- C7 at a concrete input: re-uploading with and without a `tags` entry. -/
theorem Upload_update_path_keeps_labels_witness :
    Upload (constEnv taggedMatter) memClient exampleConfig exampleFile uploadedWorld =
      Upload (constEnv []) memClient exampleConfig exampleFile uploadedWorld :=
  (Upload_update_path_keeps_labels (constEnv []) (constEnv taggedMatter) memClient exampleConfig
    exampleFile uploadedWorld _ _ _ _ [] taggedMatter _ _ rfl rfl rfl rfl rfl
    (by intro k hk; simp [taggedMatter, fmGet, Ne.symm hk]) rfl).2

/-- The loop over a path split in two: the second part runs from the result of
the first when the first succeeded. -/
theorem ancestorsLoop_append_ok {σ : Type} (cl : Client σ) (m : Config) (f : MarkdownFile)
    (pre post : List String) :
    ∀ (ancestorID : String) (w : World σ),
      (ancestorsLoop cl m f pre ancestorID w).1.2 = none →
      ancestorsLoop cl m f (pre ++ post) ancestorID w =
        ancestorsLoop cl m f post (ancestorsLoop cl m f pre ancestorID w).1.1
          (ancestorsLoop cl m f pre ancestorID w).2 := by
  induction pre with
  | nil => intro ancestorID w _; simp [ancestorsLoop]
  | cons parent rest ih =>
    intro ancestorID w h
    cases he : (FindOrCreateAncestor cl m f ancestorID parent w).1.2 with
    | some err =>
      rw [ancestorsLoop_cons_err cl m f parent rest ancestorID w err he] at h
      cases h
    | none =>
      rw [ancestorsLoop_cons_ok cl m f parent rest ancestorID w he] at h
      rw [List.cons_append, ancestorsLoop_cons_ok cl m f parent (rest ++ post) ancestorID w he,
        ancestorsLoop_cons_ok cl m f parent rest ancestorID w he]
      exact ih _ _ h

/-- One resolver step against a store whose calls succeed. -/
theorem FindOrCreateAncestor_of_succeeding {σ : Type} (cl : Client σ) (m : Config)
    (f : MarkdownFile) (ancestorID parent : String) (w : World σ)
    (hget : ∀ q s, (cl.GetContent q s).1.2 = none)
    (hcreate : ∀ bp s, (cl.CreateContent bp s).1.2 = none) :
    (FindOrCreateAncestor cl m f ancestorID parent w).1 =
      (if parent = "" then "" else specResolvedId cl m ancestorID parent w, none) := by
  unfold FindOrCreateAncestor specResolvedId
  by_cases hp : parent = ""
  · simp [hp]
  · simp only [if_neg hp]
    cases hc : mapGet w.ParentIndex parent with
    | some val => rfl
    | none =>
      simp only [doGetContent, hget]
      cases hl : (cl.GetContent (parentQuery m parent) w.store).1.1 with
      | cons content rest => rfl
      | nil => simp only [doCreateContent, hcreate]

/-- The resolver loop against a store whose calls succeed returns no error. -/
theorem ancestorsLoop_of_succeeding {σ : Type} (cl : Client σ) (m : Config) (f : MarkdownFile)
    (hget : ∀ q s, (cl.GetContent q s).1.2 = none)
    (hcreate : ∀ bp s, (cl.CreateContent bp s).1.2 = none) (path : List String) :
    ∀ (ancestorID : String) (w : World σ),
      (ancestorsLoop cl m f path ancestorID w).1.2 = none := by
  induction path with
  | nil => intro ancestorID w; simp [ancestorsLoop]
  | cons parent rest ih =>
    intro ancestorID w
    have he : (FindOrCreateAncestor cl m f ancestorID parent w).1.2 = none := by
      rw [FindOrCreateAncestor_of_succeeding cl m f ancestorID parent w hget hcreate]
    rw [ancestorsLoop_cons_ok cl m f parent rest ancestorID w he]
    exact ih _ _

/-- C8, the claim at the path made of one empty folder name: every call of the
in-memory store succeeds, the id the claim names is that of the stub the store
would create, `id0`, and the resolver returns the empty id. -/
theorem FindOrCreateAncestors_empty_name_not_resolvedId :
    (∀ q s, (memClient.GetContent q s).1.2 = none) ∧
    (∀ bp s, (memClient.CreateContent bp s).1.2 = none) ∧
    rootFile.Parents = [] ++ [""] ∧
    specResolvedId memClient exampleConfig "" "" emptyWorld = "id0" ∧
    (FindOrCreateAncestors memClient exampleConfig rootFile emptyWorld).1 = ("", none) :=
  ⟨fun _ _ => rfl, fun _ _ => rfl, rfl, by decide, by decide⟩

/-- C8, amended.  Against a store whose calls succeed, `FindOrCreateAncestors` returns
no error and, for a path ending in a non-empty folder name, the id resolved for
that name after the preceding names were resolved: its cached id, else the id
of the first page found, else the id of the new stub.  For a path ending in the
empty name it returns the empty id.  For the empty path it returns the empty id
and leaves the world, hence the call log, unchanged. -/
theorem FindOrCreateAncestors_result {σ : Type} (cl : Client σ) (m : Config)
    (f : MarkdownFile) (w : World σ)
    (hget : ∀ q s, (cl.GetContent q s).1.2 = none)
    (hcreate : ∀ bp s, (cl.CreateContent bp s).1.2 = none) :
    (f.Parents = [] → FindOrCreateAncestors cl m f w = (("", none), w)) ∧
    ∀ pre name, f.Parents = pre ++ [name] →
      (FindOrCreateAncestors cl m f w).1 =
        (if name = "" then ""
          else specResolvedId cl m (ancestorsLoop cl m f pre "" w).1.1 name
            (ancestorsLoop cl m f pre "" w).2, none) := by
  refine ⟨fun h => by simp [FindOrCreateAncestors, h, ancestorsLoop], ?_⟩
  intro pre name hpath
  have hpre := ancestorsLoop_of_succeeding cl m f hget hcreate pre "" w
  have hstep := FindOrCreateAncestor_of_succeeding cl m f (ancestorsLoop cl m f pre "" w).1.1 name
    (ancestorsLoop cl m f pre "" w).2 hget hcreate
  have he : (FindOrCreateAncestor cl m f (ancestorsLoop cl m f pre "" w).1.1 name
      (ancestorsLoop cl m f pre "" w).2).1.2 = none := by rw [hstep]
  unfold FindOrCreateAncestors
  rw [hpath, ancestorsLoop_append_ok cl m f pre [name] "" w hpre,
    ancestorsLoop_cons_ok cl m f name [] _ _ he, ancestorsLoop_nil, ← hstep]
  exact Prod.ext rfl he.symm

/-- C8, amended, at a concrete input: the path `a`, `b` on an empty store
resolves to the stub created for `b`. -/
theorem FindOrCreateAncestors_result_witness :
    (FindOrCreateAncestors memClient exampleConfig nestedFile emptyWorld).1 = ("id1", none) :=
  ((FindOrCreateAncestors_result memClient exampleConfig nestedFile emptyWorld
    (fun _ _ => rfl) (fun _ _ => rfl)).2 ["a"] "b" rfl).trans rfl

/-- The log before a resolver loop is a prefix of the log after it. -/
theorem ancestorsLoop_calls_prefix {σ : Type} (cl : Client σ) (m : Config) (f : MarkdownFile)
    (path : List String) (ancestorID : String) (w : World σ) :
    w.calls <+: (ancestorsLoop cl m f path ancestorID w).2.calls := by
  obtain ⟨new, hcalls, -, -⟩ := ancestorsLoop_effect cl m f path ancestorID w
  exact ⟨new, hcalls.symm⟩

/-- A resolver step that reaches the create branch: the name is non-empty, has no
cache entry, and its search returns no page and no error. -/
theorem FindOrCreateAncestor_stub_calls {σ : Type} (cl : Client σ) (m : Config)
    (f : MarkdownFile) (ancestorID parent : String) (w : World σ)
    (hname : parent ≠ "") (hcache : mapGet w.ParentIndex parent = none)
    (hsearch : (cl.GetContent (parentQuery m parent) w.store).1 = ([], none)) :
    (FindOrCreateAncestor cl m f ancestorID parent w).2.calls =
      w.calls ++ [Call.getContent (parentQuery m parent),
        Call.createContent (parentStub m ancestorID parent)] := by
  unfold FindOrCreateAncestor
  simp only [if_neg hname, hcache, doGetContent, hsearch]
  split <;> simp [doCreateContent]

/-- C9, the claim at the empty folder name: it has no cache entry and the store
finds no page for it, and the resolver issues no call at all, so no create. -/
theorem FindOrCreateAncestors_empty_name_no_stub :
    mapGet emptyWorld.ParentIndex "" = none ∧
    (memClient.GetContent (parentQuery exampleConfig "") emptyWorld.store).1 = ([], none) ∧
    (FindOrCreateAncestors memClient exampleConfig rootFile emptyWorld).2.calls = [] :=
  ⟨by decide, by decide, by decide⟩

/-- C9 (stub creation), amended.  For a path segment with a non-empty folder name that
has no cache entry and for which the search returns no page, reached after the
preceding segments resolved to `prevID`, the resolver issues the search and then
a create request titled that name, of type page, in the configured space, with
the child-listing boilerplate as body, and with the one ancestor `prevID` when
`prevID` is non-empty and no ancestor otherwise.  For the outermost segment
`prevID` is empty. -/
theorem FindOrCreateAncestors_stub_request {σ : Type} (cl : Client σ) (m : Config)
    (f : MarkdownFile) (w w1 : World σ) (pre post : List String) (name prevID : String)
    (hpath : f.Parents = pre ++ name :: post)
    (hpre : ancestorsLoop cl m f pre "" w = ((prevID, none), w1))
    (hname : name ≠ "")
    (hcache : mapGet w1.ParentIndex name = none)
    (hsearch : (cl.GetContent (parentQuery m name) w1.store).1 = ([], none)) :
    (w1.calls ++ [Call.getContent (parentQuery m name),
      Call.createContent
        { Title := name
          Type_ := "page"
          SpaceKey := m.Space
          BodyRepresentation := "storage"
          BodyValue := defaultAncestorPage
          Ancestors := if prevID = "" then [] else [{ ID := prevID }] }]
      <+: (FindOrCreateAncestors cl m f w).2.calls) ∧
    (pre = [] → prevID = "") := by
  constructor
  · have hpre2 : (ancestorsLoop cl m f pre "" w).1.2 = none := by rw [hpre]
    have hstub : parentStub m prevID name =
        { Title := name
          Type_ := "page"
          SpaceKey := m.Space
          BodyRepresentation := "storage"
          BodyValue := defaultAncestorPage
          Ancestors := if prevID = "" then [] else [{ ID := prevID }] } := by
      unfold parentStub
      by_cases h : prevID = "" <;> simp [h]
    unfold FindOrCreateAncestors
    rw [hpath, ancestorsLoop_append_ok cl m f pre (name :: post) "" w hpre2, hpre, ← hstub,
      ← FindOrCreateAncestor_stub_calls cl m f prevID name w1 hname hcache hsearch]
    simp only
    cases he : (FindOrCreateAncestor cl m f prevID name w1).1.2 with
    | some err =>
      rw [ancestorsLoop_cons_err cl m f name post prevID w1 err he]
    | none =>
      rw [ancestorsLoop_cons_ok cl m f name post prevID w1 he]
      exact ancestorsLoop_calls_prefix cl m f post _ _
  · intro h
    rw [h, ancestorsLoop_nil] at hpre
    cases hpre
    rfl

/-- C9, amended, at a concrete input: the stub for `b` under `a` has the one
ancestor `id0`, the id of the stub created for `a`. -/
theorem FindOrCreateAncestors_stub_request_witness :
    ∃ q1 c1 q2,
      [Call.getContent q1, Call.createContent c1, Call.getContent q2,
        Call.createContent
          { Title := "b"
            Type_ := "page"
            SpaceKey := "DOC"
            BodyRepresentation := "storage"
            BodyValue := defaultAncestorPage
            Ancestors := [{ ID := "id0" }] }]
        <+: (FindOrCreateAncestors memClient exampleConfig nestedFile emptyWorld).2.calls :=
  ⟨_, _, _,
    (FindOrCreateAncestors_stub_request memClient exampleConfig nestedFile emptyWorld _ ["a"] []
      "b" "id0" rfl rfl (by decide) (by decide) (by decide)).1⟩

/-- How one resolver step fails: on its search, or on its create after a search
that returned no page; with the message and the calls of either case. -/
theorem FindOrCreateAncestor_failure {σ : Type} (cl : Client σ) (m : Config)
    (f : MarkdownFile) (ancestorID parent err : String) (w : World σ)
    (hfail : (FindOrCreateAncestor cl m f ancestorID parent w).1.2 = some err) :
    (FindOrCreateAncestor cl m f ancestorID parent w).1.1 = "" ∧
    ((∃ e, (cl.GetContent (parentQuery m parent) w.store).1.2 = some e ∧
        err = "Error checking for parent page: " ++ e ∧
        (FindOrCreateAncestor cl m f ancestorID parent w).2.calls =
          w.calls ++ [Call.getContent (parentQuery m parent)]) ∨
      (∃ e, (cl.GetContent (parentQuery m parent) w.store).1 = ([], none) ∧
        (cl.CreateContent (parentStub m ancestorID parent)
          (cl.GetContent (parentQuery m parent) w.store).2).1.2 = some e ∧
        err = "Error creating parent page " ++ f.Path ++ " for " ++ parent ++ ": " ++ e ∧
        (FindOrCreateAncestor cl m f ancestorID parent w).2.calls =
          w.calls ++ [Call.getContent (parentQuery m parent),
            Call.createContent (parentStub m ancestorID parent)])) := by
  unfold FindOrCreateAncestor at hfail ⊢
  by_cases hp : parent = ""
  · simp [hp] at hfail
  · simp only [if_neg hp] at hfail ⊢
    cases hc : mapGet w.ParentIndex parent with
    | some val => simp [hc] at hfail
    | none =>
      simp only [hc, doGetContent] at hfail ⊢
      cases hse : (cl.GetContent (parentQuery m parent) w.store).1.2 with
      | some e =>
        simp only [hse] at hfail ⊢
        refine ⟨trivial, Or.inl ⟨e, rfl, ?_, trivial⟩⟩
        simpa using hfail.symm
      | none =>
        simp only [hse] at hfail ⊢
        cases hl : (cl.GetContent (parentQuery m parent) w.store).1.1 with
        | cons content rest => simp [hl] at hfail
        | nil =>
          simp only [hl, doCreateContent] at hfail ⊢
          cases hce : (cl.CreateContent (parentStub m ancestorID parent)
              (cl.GetContent (parentQuery m parent) w.store).2).1.2 with
          | none => simp [hce] at hfail
          | some e =>
            simp only [hce] at hfail ⊢
            refine ⟨trivial, Or.inr ⟨e, Prod.ext hl hse, rfl, ?_, by simp⟩⟩
            simpa [parentStub] using hfail.symm

/-- C10, the claim at a failing search: the resolver of `docs/zeta/q.md` fails on
the search for folder `zeta`, and its error message contains neither the folder
name nor the path of the document. -/
theorem FindOrCreateAncestors_search_error_lacks_context :
    (FindOrCreateAncestors searchFailingClient exampleConfig zetaFile emptyWorld).1 =
      ("", some "Error checking for parent page: search refused") ∧
    ¬ ("zeta".data <:+: "Error checking for parent page: search refused".data) ∧
    ¬ (zetaFile.Path.data <:+: "Error checking for parent page: search refused".data) :=
  ⟨by decide, by decide, by decide⟩

/-- A failing search makes the step fail: the step returns the empty id and the
wrapped error, after that one call, and writes nothing to the cache. -/
theorem FindOrCreateAncestor_search_fails {σ : Type} (cl : Client σ) (m : Config)
    (f : MarkdownFile) (ancestorID parent e : String) (w : World σ)
    (hname : parent ≠ "") (hcache : mapGet w.ParentIndex parent = none)
    (hse : (cl.GetContent (parentQuery m parent) w.store).1.2 = some e) :
    FindOrCreateAncestor cl m f ancestorID parent w =
      (("", some ("Error checking for parent page: " ++ e)),
        { store := (cl.GetContent (parentQuery m parent) w.store).2
          ParentIndex := w.ParentIndex
          calls := w.calls ++ [Call.getContent (parentQuery m parent)] }) := by
  unfold FindOrCreateAncestor
  simp only [if_neg hname, hcache, doGetContent, hse]

/-- A failing create, after a search that returned no page, makes the step fail:
the step returns the empty id and the wrapped error, after those two calls, and
writes nothing to the cache. -/
theorem FindOrCreateAncestor_create_fails {σ : Type} (cl : Client σ) (m : Config)
    (f : MarkdownFile) (ancestorID parent e : String) (w : World σ)
    (hname : parent ≠ "") (hcache : mapGet w.ParentIndex parent = none)
    (hsearch : (cl.GetContent (parentQuery m parent) w.store).1 = ([], none))
    (hce : (cl.CreateContent (parentStub m ancestorID parent)
      (cl.GetContent (parentQuery m parent) w.store).2).1.2 = some e) :
    FindOrCreateAncestor cl m f ancestorID parent w =
      (("", some ("Error creating parent page " ++ f.Path ++ " for " ++ parent ++ ": " ++ e)),
        { store := (cl.CreateContent (parentStub m ancestorID parent)
            (cl.GetContent (parentQuery m parent) w.store).2).2
          ParentIndex := w.ParentIndex
          calls := w.calls ++ [Call.getContent (parentQuery m parent),
            Call.createContent (parentStub m ancestorID parent)] }) := by
  unfold FindOrCreateAncestor
  simp only [if_neg hname, hcache, doGetContent, hsearch, doCreateContent, hce]
  simp [parentStub]

/-- The loop stops at the first failing step: what follows it in the path is
never entered. -/
theorem ancestorsLoop_fails_at {σ : Type} (cl : Client σ) (m : Config) (f : MarkdownFile)
    (w w1 : World σ) (pre post : List String) (name prevID err : String)
    (hpre : ancestorsLoop cl m f pre "" w = ((prevID, none), w1))
    (hfail : (FindOrCreateAncestor cl m f prevID name w1).1.2 = some err) :
    ancestorsLoop cl m f (pre ++ name :: post) "" w =
      (((FindOrCreateAncestor cl m f prevID name w1).1.1, some err),
        (FindOrCreateAncestor cl m f prevID name w1).2) := by
  have hpre2 : (ancestorsLoop cl m f pre "" w).1.2 = none := by rw [hpre]
  rw [ancestorsLoop_append_ok cl m f pre (name :: post) "" w hpre2, hpre]
  simp only
  rw [ancestorsLoop_cons_err cl m f name post prevID w1 err hfail]

/-- C10 (resolver failure), amended.  Let the segments before folder `name` have
resolved.  If the search for `name` fails (it is issued when `name` is
non-empty and has no cache entry), `FindOrCreateAncestors` returns the empty id
and the error `Error checking for parent page: ` followed by the error of the
store, and its last call is that search.  If the search returns no page and the
create fails, it returns the empty id and an error whose message contains both
the path of the document and the folder name, and its last calls are that
search and that create.  In both cases the result does not depend on the later
segments: no call is issued for them, and the cache is the one the earlier
segments left.  Conversely the step for `name` returns an error only in these
two ways. -/
theorem FindOrCreateAncestors_failure {σ : Type} (cl : Client σ) (m : Config)
    (f : MarkdownFile) (w w1 : World σ) (pre post : List String) (name prevID : String)
    (hpath : f.Parents = pre ++ name :: post)
    (hpre : ancestorsLoop cl m f pre "" w = ((prevID, none), w1)) :
    (∀ e, name ≠ "" → mapGet w1.ParentIndex name = none →
      (cl.GetContent (parentQuery m name) w1.store).1.2 = some e →
      FindOrCreateAncestors cl m f w =
        (("", some ("Error checking for parent page: " ++ e)),
          { store := (cl.GetContent (parentQuery m name) w1.store).2
            ParentIndex := w1.ParentIndex
            calls := w1.calls ++ [Call.getContent (parentQuery m name)] })) ∧
    (∀ e, name ≠ "" → mapGet w1.ParentIndex name = none →
      (cl.GetContent (parentQuery m name) w1.store).1 = ([], none) →
      (cl.CreateContent (parentStub m prevID name)
        (cl.GetContent (parentQuery m name) w1.store).2).1.2 = some e →
      FindOrCreateAncestors cl m f w =
        (("", some ("Error creating parent page " ++ f.Path ++ " for " ++ name ++ ": " ++ e)),
          { store := (cl.CreateContent (parentStub m prevID name)
              (cl.GetContent (parentQuery m name) w1.store).2).2
            ParentIndex := w1.ParentIndex
            calls := w1.calls ++ [Call.getContent (parentQuery m name),
              Call.createContent (parentStub m prevID name)] }) ∧
      f.Path.data <:+:
        ("Error creating parent page " ++ f.Path ++ " for " ++ name ++ ": " ++ e).data ∧
      name.data <:+:
        ("Error creating parent page " ++ f.Path ++ " for " ++ name ++ ": " ++ e).data) ∧
    (∀ err, (FindOrCreateAncestor cl m f prevID name w1).1.2 = some err →
      FindOrCreateAncestors cl m f w =
        (("", some err), (FindOrCreateAncestor cl m f prevID name w1).2) ∧
      ((∃ e, (cl.GetContent (parentQuery m name) w1.store).1.2 = some e ∧
          err = "Error checking for parent page: " ++ e ∧
          (FindOrCreateAncestors cl m f w).2.calls =
            w1.calls ++ [Call.getContent (parentQuery m name)]) ∨
        (∃ e, (cl.GetContent (parentQuery m name) w1.store).1 = ([], none) ∧
          (cl.CreateContent (parentStub m prevID name)
            (cl.GetContent (parentQuery m name) w1.store).2).1.2 = some e ∧
          err = "Error creating parent page " ++ f.Path ++ " for " ++ name ++ ": " ++ e ∧
          f.Path.data <:+: err.data ∧ name.data <:+: err.data ∧
          (FindOrCreateAncestors cl m f w).2.calls =
            w1.calls ++ [Call.getContent (parentQuery m name),
              Call.createContent (parentStub m prevID name)]))) := by
  have hoccurs : ∀ e : String,
      f.Path.data <:+:
        ("Error creating parent page " ++ f.Path ++ " for " ++ name ++ ": " ++ e).data ∧
      name.data <:+:
        ("Error creating parent page " ++ f.Path ++ " for " ++ name ++ ": " ++ e).data := by
    intro e
    simp only [String.data_append]
    exact ⟨⟨"Error creating parent page ".data,
        " for ".data ++ name.data ++ ": ".data ++ e.data, by simp⟩,
      ⟨"Error creating parent page ".data ++ f.Path.data ++ " for ".data,
        ": ".data ++ e.data, by simp⟩⟩
  refine ⟨?_, ?_, ?_⟩
  · intro e hname hcache hse
    have hstep := FindOrCreateAncestor_search_fails cl m f prevID name e w1 hname hcache hse
    have hfail : (FindOrCreateAncestor cl m f prevID name w1).1.2 =
        some ("Error checking for parent page: " ++ e) := by rw [hstep]
    unfold FindOrCreateAncestors
    rw [hpath, ancestorsLoop_fails_at cl m f w w1 pre post name prevID _ hpre hfail, hstep]
  · intro e hname hcache hsearch hce
    have hstep := FindOrCreateAncestor_create_fails cl m f prevID name e w1 hname hcache hsearch
      hce
    have hfail : (FindOrCreateAncestor cl m f prevID name w1).1.2 =
        some ("Error creating parent page " ++ f.Path ++ " for " ++ name ++ ": " ++ e) := by
      rw [hstep]
    refine ⟨?_, hoccurs e⟩
    unfold FindOrCreateAncestors
    rw [hpath, ancestorsLoop_fails_at cl m f w w1 pre post name prevID _ hpre hfail, hstep]
  · intro err hfail
    have hstep := FindOrCreateAncestor_failure cl m f prevID name err w1 hfail
    have hall : FindOrCreateAncestors cl m f w =
        (("", some err), (FindOrCreateAncestor cl m f prevID name w1).2) := by
      unfold FindOrCreateAncestors
      rw [hpath, ancestorsLoop_fails_at cl m f w w1 pre post name prevID err hpre hfail, hstep.1]
    refine ⟨hall, ?_⟩
    rw [hall]
    rcases hstep.2 with ⟨e, h1, h2, h3⟩ | ⟨e, h1, h2, h3, h4⟩
    · exact Or.inl ⟨e, h1, h2, h3⟩
    · refine Or.inr ⟨e, h1, h2, h3, ?_, ?_, h4⟩
      · rw [h3]
        exact (hoccurs e).1
      · rw [h3]
        exact (hoccurs e).2

/-- C10, amended, at concrete inputs: a failing search and a failing create for
folder `zeta`, each making the resolver return its error. -/
theorem FindOrCreateAncestors_failure_witness :
    (FindOrCreateAncestors searchFailingClient exampleConfig zetaFile emptyWorld).1 =
      ("", some "Error checking for parent page: search refused") ∧
    (FindOrCreateAncestors createFailingClient exampleConfig zetaFile emptyWorld).1 =
      ("", some "Error creating parent page docs/zeta/q.md for zeta: create refused") ∧
    (FindOrCreateAncestors createFailingClient exampleConfig zetaFile emptyWorld).2.calls.length =
      2 :=
  ⟨(congrArg Prod.fst
      ((FindOrCreateAncestors_failure searchFailingClient exampleConfig zetaFile emptyWorld
        emptyWorld [] [] "zeta" "" rfl rfl).1 "search refused" (by decide) (by decide)
        rfl)).trans rfl,
    (congrArg Prod.fst
      ((FindOrCreateAncestors_failure createFailingClient exampleConfig zetaFile emptyWorld
        emptyWorld [] [] "zeta" "" rfl rfl).2.1 "create refused" (by decide) (by decide)
        rfl rfl).1).trans rfl,
    (congrArg (fun r => r.2.calls.length)
      ((FindOrCreateAncestors_failure createFailingClient exampleConfig zetaFile emptyWorld
        emptyWorld [] [] "zeta" "" rfl rfl).2.1 "create refused" (by decide) (by decide)
        rfl rfl).1).trans rfl⟩

/-- C15 (missing front-matter title).  Without a `title` entry `getTitle` returns the
derived title of the document unchanged, hyphens included; with one it returns
the value rendered as a string. -/
theorem getTitle_fallback (f : MarkdownFile) (fm : FrontMatter) :
    (fmGet fm "title" = none → getTitle f fm = f.Title) ∧
    (∀ val, fmGet fm "title" = some val → getTitle f fm = sprintV val) := by
  constructor
  · intro h
    simp [getTitle, h, stringsReplace]
  · intro val h
    simp [getTitle, h]

/-- C15 at concrete inputs: `My Page` with an empty front matter, a hyphenated
title with an empty front matter, and a front matter with a title. -/
theorem getTitle_fallback_witness :
    getTitle myPageFile [] = "My Page" ∧ getTitle plainFile [] = "my-page" ∧
    getTitle plainFile titledMatter = "My Page" :=
  ⟨(getTitle_fallback myPageFile []).1 rfl, (getTitle_fallback plainFile []).1 rfl,
    ((getTitle_fallback plainFile titledMatter).2 (Value.str "My Page") rfl).trans rfl⟩

/-- The stored body, spelled out: with a date the creation-date sentence carries
its own closing `i` tag, before the closing tag. -/
theorem wikiContentOf_eq (env : Env) (matter : FrontMatter) (body : String) :
    wikiContentOf env matter body =
      match fmGet matter "date" with
      | some d =>
        env.renderContent body ++ attribution ++
          ("Original date of creation: " ++ sprintS d ++ ".</i>") ++ "</i></p>"
      | none => env.renderContent body ++ attribution ++ "</i></p>" := by
  unfold wikiContentOf
  cases fmGet matter "date" <;> rfl

/-- Without a date the stored body is the one the specification composes. -/
theorem wikiContentOf_no_date (env : Env) (matter : FrontMatter) (body : String)
    (h : fmGet matter "date" = none) :
    wikiContentOf env matter body = specBody (env.renderContent body) none := by
  rw [wikiContentOf_eq, h]
  rfl

/-- C16.  For the body `# Hello` and the date `2020-01-01` the body of the create
request ends with the creation-date sentence, a closing `i` tag and then the
closing tag, so it closes the `i` element twice; it is not the rendered body
followed by the attribution, the creation-date sentence and the closing tag. -/
theorem Upload_dated_body_closes_twice :
    ∃ q bp rest,
      (Upload (helloEnv datedMatter) memClient exampleConfig plainFile emptyWorld).2.calls =
        Call.getContent q :: Call.createContent bp :: rest ∧
      bp.BodyValue =
        "# Hello" ++ attribution ++ "Original date of creation: 2020-01-01." ++ "</i>" ++
          "</i></p>" ∧
      bp.BodyValue ≠ specBody "# Hello" (some "2020-01-01") :=
  ⟨_, _, _, rfl, rfl, by set_option maxRecDepth 100000 in decide⟩

/-- The loop over a path split in two: when the first part fails, the second
part is never entered. -/
theorem ancestorsLoop_append_err {σ : Type} (cl : Client σ) (m : Config) (f : MarkdownFile)
    (pre post : List String) :
    ∀ (ancestorID : String) (w : World σ) (err : String),
      (ancestorsLoop cl m f pre ancestorID w).1.2 = some err →
      ancestorsLoop cl m f (pre ++ post) ancestorID w = ancestorsLoop cl m f pre ancestorID w := by
  induction pre with
  | nil => intro ancestorID w err h; simp [ancestorsLoop] at h
  | cons parent rest ih =>
    intro ancestorID w err h
    cases he : (FindOrCreateAncestor cl m f ancestorID parent w).1.2 with
    | some e =>
      rw [List.cons_append, ancestorsLoop_cons_err cl m f parent (rest ++ post) ancestorID w e he,
        ancestorsLoop_cons_err cl m f parent rest ancestorID w e he]
    | none =>
      rw [ancestorsLoop_cons_ok cl m f parent rest ancestorID w he] at h
      rw [List.cons_append, ancestorsLoop_cons_ok cl m f parent (rest ++ post) ancestorID w he,
        ancestorsLoop_cons_ok cl m f parent rest ancestorID w he]
      exact ih _ _ err h

/-- A failing resolver loop returns the empty id. -/
theorem ancestorsLoop_err_id {σ : Type} (cl : Client σ) (m : Config) (f : MarkdownFile)
    (path : List String) :
    ∀ (ancestorID : String) (w : World σ) (err : String),
      (ancestorsLoop cl m f path ancestorID w).1.2 = some err →
      (ancestorsLoop cl m f path ancestorID w).1.1 = "" := by
  induction path with
  | nil => intro ancestorID w err h; simp [ancestorsLoop] at h
  | cons parent rest ih =>
    intro ancestorID w err h
    cases he : (FindOrCreateAncestor cl m f ancestorID parent w).1.2 with
    | some e =>
      rw [ancestorsLoop_cons_err cl m f parent rest ancestorID w e he]
      exact (FindOrCreateAncestor_failure cl m f ancestorID parent e w he).1
    | none =>
      rw [ancestorsLoop_cons_ok cl m f parent rest ancestorID w he] at h ⊢
      exact ih _ _ err h

/-- The step for the empty folder name. -/
theorem FindOrCreateAncestor_empty {σ : Type} (cl : Client σ) (m : Config) (f : MarkdownFile)
    (ancestorID : String) (w : World σ) :
    FindOrCreateAncestor cl m f ancestorID "" w = (("", none), w) := by
  simp [FindOrCreateAncestor]

/-- The calls of a segment that reaches the create branch, inside the loop over
the whole path. -/
theorem ancestorsLoop_stub_prefix {σ : Type} (cl : Client σ) (m : Config) (f : MarkdownFile)
    (w w1 : World σ) (pre post : List String) (name prevID : String)
    (hpre : ancestorsLoop cl m f pre "" w = ((prevID, none), w1))
    (hname : name ≠ "") (hcache : mapGet w1.ParentIndex name = none)
    (hsearch : (cl.GetContent (parentQuery m name) w1.store).1 = ([], none)) :
    w1.calls ++ [Call.getContent (parentQuery m name),
      Call.createContent (parentStub m prevID name)]
      <+: (ancestorsLoop cl m f (pre ++ name :: post) "" w).2.calls := by
  have hpre2 : (ancestorsLoop cl m f pre "" w).1.2 = none := by rw [hpre]
  rw [ancestorsLoop_append_ok cl m f pre (name :: post) "" w hpre2, hpre,
    ← FindOrCreateAncestor_stub_calls cl m f prevID name w1 hname hcache hsearch]
  simp only
  cases he : (FindOrCreateAncestor cl m f prevID name w1).1.2 with
  | some err =>
    rw [ancestorsLoop_cons_err cl m f name post prevID w1 err he]
  | none =>
    rw [ancestorsLoop_cons_ok cl m f name post prevID w1 he]
    exact ancestorsLoop_calls_prefix cl m f post _ _

/-- C17 (an empty folder name resets the ancestor chain).  Whatever the previous id,
the step for the empty folder name returns the empty id and no error and leaves
the world unchanged: no store call, no cache entry.  Hence a path whose last
segment is empty resolves to the empty id, with the world left by the
preceding segments.  And when the segment after an empty one reaches the create
branch, its stub is created without ancestor, whatever the segments before the
empty one resolved to. -/
theorem FindOrCreateAncestor_empty_name_resets {σ : Type} (cl : Client σ) (m : Config)
    (f : MarkdownFile) (w : World σ) :
    (∀ ancestorID, FindOrCreateAncestor cl m f ancestorID "" w = (("", none), w)) ∧
    (∀ pre, f.Parents = pre ++ [""] →
      (FindOrCreateAncestors cl m f w).1.1 = "" ∧
      ((ancestorsLoop cl m f pre "" w).1.2 = none →
        FindOrCreateAncestors cl m f w = (("", none), (ancestorsLoop cl m f pre "" w).2))) ∧
    (∀ pre post name prevID w1, f.Parents = pre ++ "" :: name :: post →
      ancestorsLoop cl m f pre "" w = ((prevID, none), w1) →
      name ≠ "" → mapGet w1.ParentIndex name = none →
      (cl.GetContent (parentQuery m name) w1.store).1 = ([], none) →
      w1.calls ++ [Call.getContent (parentQuery m name),
        Call.createContent
          { Title := name
            Type_ := "page"
            SpaceKey := m.Space
            BodyRepresentation := "storage"
            BodyValue := defaultAncestorPage
            Ancestors := [] }]
        <+: (FindOrCreateAncestors cl m f w).2.calls) := by
  refine ⟨fun a => FindOrCreateAncestor_empty cl m f a w, ?_, ?_⟩
  · intro pre hpath
    have hok : (ancestorsLoop cl m f pre "" w).1.2 = none →
        FindOrCreateAncestors cl m f w = (("", none), (ancestorsLoop cl m f pre "" w).2) := by
      intro hpre
      unfold FindOrCreateAncestors
      rw [hpath, ancestorsLoop_append_ok cl m f pre [""] "" w hpre]
      have he : (FindOrCreateAncestor cl m f (ancestorsLoop cl m f pre "" w).1.1 ""
          (ancestorsLoop cl m f pre "" w).2).1.2 = none := by
        rw [FindOrCreateAncestor_empty]
      rw [ancestorsLoop_cons_ok cl m f "" [] _ _ he, ancestorsLoop_nil,
        FindOrCreateAncestor_empty]
    refine ⟨?_, hok⟩
    cases hpre : (ancestorsLoop cl m f pre "" w).1.2 with
    | none => rw [hok hpre]
    | some err =>
      unfold FindOrCreateAncestors
      rw [hpath, ancestorsLoop_append_err cl m f pre [""] "" w err hpre]
      exact ancestorsLoop_err_id cl m f pre "" w err hpre
  · intro pre post name prevID w1 hpath hpre hname hcache hsearch
    have hpre2 : (ancestorsLoop cl m f pre "" w).1.2 = none := by rw [hpre]
    have hgap : ancestorsLoop cl m f (pre ++ [""]) "" w = (("", none), w1) := by
      have he : (FindOrCreateAncestor cl m f prevID "" w1).1.2 = none := by
        rw [FindOrCreateAncestor_empty]
      rw [ancestorsLoop_append_ok cl m f pre [""] "" w hpre2, hpre]
      simp only
      rw [ancestorsLoop_cons_ok cl m f "" [] _ _ he, ancestorsLoop_nil,
        FindOrCreateAncestor_empty]
    have h := ancestorsLoop_stub_prefix cl m f w w1 (pre ++ [""]) post name "" hgap hname hcache
      hsearch
    have hlist : pre ++ "" :: name :: post = (pre ++ [""]) ++ name :: post := by simp
    unfold FindOrCreateAncestors
    rw [hpath, hlist]
    simpa [parentStub] using h

/-- C17 at a concrete input: under `a`, an empty name, `b`, the stub for `b` has no
ancestor although `a` resolved to `id0`; and the path `a`, empty name resolves
to the empty id. -/
theorem FindOrCreateAncestor_empty_name_resets_witness :
    (∃ q1 c1 q2,
      [Call.getContent q1, Call.createContent c1, Call.getContent q2,
        Call.createContent
          { Title := "b"
            Type_ := "page"
            SpaceKey := "DOC"
            BodyRepresentation := "storage"
            BodyValue := defaultAncestorPage
            Ancestors := [] }]
        <+: (FindOrCreateAncestors memClient exampleConfig gapFile emptyWorld).2.calls) ∧
    (FindOrCreateAncestors memClient exampleConfig trailingGapFile emptyWorld).1 = ("", none) :=
  ⟨⟨_, _, _,
    (FindOrCreateAncestor_empty_name_resets memClient exampleConfig gapFile emptyWorld).2.2
      ["a"] [] "b" "id0" _ rfl rfl (by decide) (by decide) (by decide)⟩,
    congrArg Prod.fst
      (((FindOrCreateAncestor_empty_name_resets memClient exampleConfig trailingGapFile
        emptyWorld).2.1 ["a"] rfl).2 rfl)⟩

/-- A successful step for a non-empty name leaves that name cached with the id
it returned. -/
theorem FindOrCreateAncestor_caches {σ : Type} (cl : Client σ) (m : Config)
    (f : MarkdownFile) (ancestorID parent : String) (w : World σ) (hname : parent ≠ "")
    (hok : (FindOrCreateAncestor cl m f ancestorID parent w).1.2 = none) :
    mapGet (FindOrCreateAncestor cl m f ancestorID parent w).2.ParentIndex parent =
      some (FindOrCreateAncestor cl m f ancestorID parent w).1.1 := by
  unfold FindOrCreateAncestor at hok ⊢
  simp only [if_neg hname] at hok ⊢
  cases hc : mapGet w.ParentIndex parent with
  | some val => simpa using hc
  | none =>
    simp only [hc] at hok ⊢
    cases hse : (doGetContent cl (parentQuery m parent) w).1.2 with
    | some e => simp [hse] at hok
    | none =>
      simp only [hse] at hok ⊢
      cases hl : (doGetContent cl (parentQuery m parent) w).1.1 with
      | cons content rest => simp [mapGet_mapSet]
      | nil =>
        simp only [hl] at hok ⊢
        cases hce : (doCreateContent cl (parentStub m ancestorID parent)
            (doGetContent cl (parentQuery m parent) w).2).1.2 with
        | some e => simp [hce] at hok
        | none => simp [mapGet_mapSet]

/-- A failing step writes nothing to the cache. -/
theorem FindOrCreateAncestor_failure_cache {σ : Type} (cl : Client σ) (m : Config)
    (f : MarkdownFile) (ancestorID parent err : String) (w : World σ)
    (hfail : (FindOrCreateAncestor cl m f ancestorID parent w).1.2 = some err) :
    (FindOrCreateAncestor cl m f ancestorID parent w).2.ParentIndex = w.ParentIndex := by
  unfold FindOrCreateAncestor at hfail ⊢
  by_cases hp : parent = ""
  · simp [hp] at hfail
  · simp only [if_neg hp] at hfail ⊢
    cases hc : mapGet w.ParentIndex parent with
    | some val => simp [hc] at hfail
    | none =>
      simp only [hc] at hfail ⊢
      cases hse : (doGetContent cl (parentQuery m parent) w).1.2 with
      | some e => simp [doGetContent]
      | none =>
        simp only [hse] at hfail ⊢
        cases hl : (doGetContent cl (parentQuery m parent) w).1.1 with
        | cons content rest => simp [hl] at hfail
        | nil =>
          simp only [hl] at hfail ⊢
          cases hce : (doCreateContent cl (parentStub m ancestorID parent)
              (doGetContent cl (parentQuery m parent) w).2).1.2 with
          | some e => simp [doGetContent, doCreateContent]
          | none => simp [hce] at hfail

/-- After a successful loop every non-empty name of the path is cached with the
id that its segment resolved to. -/
theorem ancestorsLoop_caches {σ : Type} (cl : Client σ) (m : Config) (f : MarkdownFile)
    (pre post : List String) (name ancestorID : String) (w : World σ) (hname : name ≠ "")
    (hok : (ancestorsLoop cl m f (pre ++ name :: post) ancestorID w).1.2 = none) :
    mapGet (ancestorsLoop cl m f (pre ++ name :: post) ancestorID w).2.ParentIndex name =
      some (ancestorsLoop cl m f (pre ++ [name]) ancestorID w).1.1 := by
  have hlist : pre ++ name :: post = (pre ++ [name]) ++ post := by simp
  have hA : (ancestorsLoop cl m f (pre ++ [name]) ancestorID w).1.2 = none := by
    cases h : (ancestorsLoop cl m f (pre ++ [name]) ancestorID w).1.2 with
    | none => rfl
    | some e =>
      rw [hlist, ancestorsLoop_append_err cl m f (pre ++ [name]) post ancestorID w e h, h] at hok
      cases hok
  have hB : (ancestorsLoop cl m f pre ancestorID w).1.2 = none := by
    cases h : (ancestorsLoop cl m f pre ancestorID w).1.2 with
    | none => rfl
    | some e =>
      rw [ancestorsLoop_append_err cl m f pre [name] ancestorID w e h, h] at hA
      cases hA
  have hstep : ancestorsLoop cl m f (pre ++ [name]) ancestorID w =
      ancestorsLoop cl m f [name] (ancestorsLoop cl m f pre ancestorID w).1.1
        (ancestorsLoop cl m f pre ancestorID w).2 :=
    ancestorsLoop_append_ok cl m f pre [name] ancestorID w hB
  have he : (FindOrCreateAncestor cl m f (ancestorsLoop cl m f pre ancestorID w).1.1 name
      (ancestorsLoop cl m f pre ancestorID w).2).1.2 = none := by
    cases h : (FindOrCreateAncestor cl m f (ancestorsLoop cl m f pre ancestorID w).1.1 name
        (ancestorsLoop cl m f pre ancestorID w).2).1.2 with
    | none => rfl
    | some e =>
      rw [hstep, ancestorsLoop_cons_err cl m f name [] _ _ e h] at hA
      cases hA
  have hcached := FindOrCreateAncestor_caches cl m f _ name _ hname he
  rw [ancestorsLoop_cons_ok cl m f name [] _ _ he, ancestorsLoop_nil] at hstep
  obtain ⟨-, -, -, hmono⟩ := ancestorsLoop_effect cl m f post
    (ancestorsLoop cl m f (pre ++ [name]) ancestorID w).1.1
    (ancestorsLoop cl m f (pre ++ [name]) ancestorID w).2
  rw [hlist, ancestorsLoop_append_ok cl m f (pre ++ [name]) post ancestorID w hA]
  apply hmono
  rw [hstep]
  exact hcached

/-- C13 (cache monotonicity).  Every call of `FindOrCreateAncestor` or
`FindOrCreateAncestors`, failing or not, leaves every cache entry with its
value.  After a successful resolution the cache maps every non-empty name of
the path to the id its segment resolved to.  After a resolution that fails at
some segment the cache is the one left by the preceding segments, which maps
every non-empty name among them to the id its segment resolved to. -/
theorem ParentIndex_monotone {σ : Type} (cl : Client σ) (m : Config) (f : MarkdownFile)
    (w : World σ) :
    (∀ ancestorID parent k v, mapGet w.ParentIndex k = some v →
      mapGet (FindOrCreateAncestor cl m f ancestorID parent w).2.ParentIndex k = some v) ∧
    (∀ k v, mapGet w.ParentIndex k = some v →
      mapGet (FindOrCreateAncestors cl m f w).2.ParentIndex k = some v) ∧
    ((FindOrCreateAncestors cl m f w).1.2 = none →
      ∀ pre name post, f.Parents = pre ++ name :: post → name ≠ "" →
        mapGet (FindOrCreateAncestors cl m f w).2.ParentIndex name =
          some (ancestorsLoop cl m f (pre ++ [name]) "" w).1.1) ∧
    (∀ pre name post prevID w1 err, f.Parents = pre ++ name :: post →
      ancestorsLoop cl m f pre "" w = ((prevID, none), w1) →
      (FindOrCreateAncestor cl m f prevID name w1).1.2 = some err →
      (FindOrCreateAncestors cl m f w).1.2 = some err ∧
      (FindOrCreateAncestors cl m f w).2.ParentIndex = w1.ParentIndex ∧
      ∀ pre1 n post1, pre = pre1 ++ n :: post1 → n ≠ "" →
        mapGet (FindOrCreateAncestors cl m f w).2.ParentIndex n =
          some (ancestorsLoop cl m f (pre1 ++ [n]) "" w).1.1) := by
  refine ⟨?_, ?_, ?_, ?_⟩
  · intro ancestorID parent k v hk
    obtain ⟨-, -, -, hmono⟩ := FindOrCreateAncestor_effect cl m f ancestorID parent w
    exact hmono k v hk
  · intro k v hk
    obtain ⟨-, -, -, hmono⟩ := ancestorsLoop_effect cl m f f.Parents "" w
    exact hmono k v hk
  · intro hok pre name post hpath hname
    unfold FindOrCreateAncestors at hok ⊢
    rw [hpath] at hok ⊢
    exact ancestorsLoop_caches cl m f pre post name "" w hname hok
  · intro pre name post prevID w1 err hpath hpre hfail
    have hpre2 : (ancestorsLoop cl m f pre "" w).1.2 = none := by rw [hpre]
    have hall : FindOrCreateAncestors cl m f w =
        (((FindOrCreateAncestor cl m f prevID name w1).1.1, some err),
          (FindOrCreateAncestor cl m f prevID name w1).2) := by
      unfold FindOrCreateAncestors
      rw [hpath, ancestorsLoop_append_ok cl m f pre (name :: post) "" w hpre2, hpre]
      simp only
      rw [ancestorsLoop_cons_err cl m f name post prevID w1 err hfail]
    have hcache := FindOrCreateAncestor_failure_cache cl m f prevID name err w1 hfail
    rw [hall]
    refine ⟨rfl, hcache, ?_⟩
    intro pre1 n post1 hsplit hn
    simp only
    rw [hcache]
    have h := ancestorsLoop_caches cl m f pre1 post1 n "" w hn (by rw [← hsplit]; exact hpre2)
    rw [← hsplit, hpre] at h
    exact h

/-- C13 at concrete inputs: after resolving `a`, `b` on an empty store both names
are cached; with creates failing and a page `a` in the store, the resolution
fails at `b` and `a` stays cached with the id of the page found. -/
theorem ParentIndex_monotone_witness :
    mapGet (FindOrCreateAncestors memClient exampleConfig nestedFile
      emptyWorld).2.ParentIndex "a" = some "id0" ∧
    mapGet (FindOrCreateAncestors createFailingClient exampleConfig nestedFile
      worldWithA).2.ParentIndex "a" = some "id0" :=
  ⟨((ParentIndex_monotone memClient exampleConfig nestedFile emptyWorld).2.2.1 rfl
      [] "a" ["b"] rfl (by decide)).trans rfl,
    (((ParentIndex_monotone createFailingClient exampleConfig nestedFile worldWithA).2.2.2
      ["a"] "b" [] "id0" _
      "Error creating parent page docs/a/b/q.md for b: create refused" rfl rfl rfl).2.2
      [] "a" [] rfl (by decide)).trans rfl⟩

/-- The calls of one resolver step: none, or one search, or one search followed
by one create, the latter only when the search returned no page and no error. -/
theorem FindOrCreateAncestor_calls_shape {σ : Type} (cl : Client σ) (m : Config)
    (f : MarkdownFile) (ancestorID parent : String) (w : World σ) :
    (FindOrCreateAncestor cl m f ancestorID parent w).2.calls = w.calls ∨
    (FindOrCreateAncestor cl m f ancestorID parent w).2.calls =
      w.calls ++ [Call.getContent (parentQuery m parent)] ∨
    ((FindOrCreateAncestor cl m f ancestorID parent w).2.calls =
      w.calls ++ [Call.getContent (parentQuery m parent),
        Call.createContent (parentStub m ancestorID parent)] ∧
      (cl.GetContent (parentQuery m parent) w.store).1 = ([], none)) := by
  unfold FindOrCreateAncestor
  by_cases hp : parent = ""
  · exact Or.inl (by simp [hp])
  · simp only [if_neg hp]
    cases hc : mapGet w.ParentIndex parent with
    | some val => exact Or.inl rfl
    | none =>
      cases hse : (doGetContent cl (parentQuery m parent) w).1.2 with
      | some e => exact Or.inr (Or.inl (by simp [doGetContent]))
      | none =>
        cases hl : (doGetContent cl (parentQuery m parent) w).1.1 with
        | cons content rest => exact Or.inr (Or.inl (by simp [doGetContent]))
        | nil =>
          refine Or.inr (Or.inr ⟨?_, Prod.ext (by simpa [doGetContent] using hl)
            (by simpa [doGetContent] using hse)⟩)
          simp only
          split <;> simp [doGetContent, doCreateContent]

/-- The calls of the resolver loop: at most one search and one create per
segment. -/
theorem ancestorsLoop_call_bounds {σ : Type} (cl : Client σ) (m : Config) (f : MarkdownFile)
    (path : List String) :
    ∀ (ancestorID : String) (w : World σ),
    ∃ new, (ancestorsLoop cl m f path ancestorID w).2.calls = w.calls ++ new ∧
      new.countP Call.isSearch ≤ path.length ∧ new.countP Call.isCreate ≤ path.length ∧
      new.countP Call.isUpdate = 0 ∧ new.length ≤ 2 * path.length := by
  induction path with
  | nil =>
    intro ancestorID w
    exact ⟨[], by simp [ancestorsLoop], by simp, by simp, by simp, by simp⟩
  | cons parent rest ih =>
    intro ancestorID w
    have hstep : ∃ new1, (FindOrCreateAncestor cl m f ancestorID parent w).2.calls =
        w.calls ++ new1 ∧ new1.countP Call.isSearch ≤ 1 ∧ new1.countP Call.isCreate ≤ 1 ∧
        new1.countP Call.isUpdate = 0 ∧ new1.length ≤ 2 := by
      rcases FindOrCreateAncestor_calls_shape cl m f ancestorID parent w with h | h | ⟨h, -⟩
      · exact ⟨[], by simpa using h, by simp, by simp, by simp, by simp⟩
      · exact ⟨_, h, by simp [Call.isSearch], by simp [Call.isCreate], by simp [Call.isUpdate],
          by simp⟩
      · exact ⟨_, h, by simp [List.countP_cons, Call.isSearch],
          by simp [List.countP_cons, Call.isCreate], by simp [Call.isUpdate], by simp⟩
    obtain ⟨new1, h1, hs1, hc1, hu1, hl1⟩ := hstep
    cases he : (FindOrCreateAncestor cl m f ancestorID parent w).1.2 with
    | some err =>
      rw [ancestorsLoop_cons_err cl m f parent rest ancestorID w err he]
      refine ⟨new1, h1, ?_, ?_, hu1, ?_⟩ <;> simp only [List.length_cons] <;> omega
    | none =>
      rw [ancestorsLoop_cons_ok cl m f parent rest ancestorID w he]
      obtain ⟨new2, h2, hs2, hc2, hu2, hl2⟩ :=
        ih (FindOrCreateAncestor cl m f ancestorID parent w).1.1
          (FindOrCreateAncestor cl m f ancestorID parent w).2
      refine ⟨new1 ++ new2, by rw [h2, h1, List.append_assoc], ?_, ?_, ?_, ?_⟩ <;>
        simp only [List.countP_append, List.length_append, List.length_cons] <;> omega

/-- The calls of the resolution inside `Upload`: at most two per segment. -/
theorem resolveParents_call_bounds {σ : Type} (cl : Client σ) (m : Config) (f : MarkdownFile)
    (w : World σ) :
    ∃ new, (resolveParents cl m f w).2.calls = w.calls ++ new ∧
      new.length ≤ 2 * f.Parents.length := by
  unfold resolveParents
  split
  · obtain ⟨new, h, -, -, -, hl⟩ := ancestorsLoop_call_bounds cl m f f.Parents "" w
    exact ⟨new, h, hl⟩
  · exact ⟨[], by simp, by simp⟩

/-- A failed leaf search ends `Upload`. -/
theorem Upload_search_error {σ : Type} (env : Env) (cl : Client σ) (m : Config)
    (f : MarkdownFile) (w w1 : World σ) (dat body err : String)
    (matter : FrontMatter) (found : List Content)
    (hread : env.ReadFile f.Path = .ok dat) (hparse : env.Parse dat = .ok (matter, body))
    (hs : doGetContent cl (leafQuery m (getTitle f matter)) w = ((found, some err), w1)) :
    Upload env cl m f w = (("", some ("Error checking for existing page: " ++ err)), w1) := by
  simp [Upload, hread, hparse, hs]

/-- A failed leaf create ends `Upload`. -/
theorem Upload_create_error {σ : Type} (env : Env) (cl : Client σ) (m : Config)
    (f : MarkdownFile) (w w1 w2 w3 : World σ) (dat body ancestorID err : String)
    (matter : FrontMatter) (created : Content)
    (hread : env.ReadFile f.Path = .ok dat) (hparse : env.Parse dat = .ok (matter, body))
    (hs : doGetContent cl (leafQuery m (getTitle f matter)) w = (([], none), w1))
    (ha : resolveParents cl m f w1 = ((ancestorID, none), w2))
    (hc : doCreateContent cl (leafCreate m f (wikiContentOf env matter body) ancestorID) w2 =
      ((created, some err), w3)) :
    Upload env cl m f w = (("", some ("Error creating page: " ++ err)), w3) := by
  simp [Upload, hread, hparse, hs, ha, hc]

/-- The calls of `Upload` after a leaf search without error: those of the
resolution, run on the world the search left, and then at most a leaf create
and an update, none of them when the resolution failed. -/
theorem Upload_calls_after_search {σ : Type} (env : Env) (cl : Client σ) (m : Config)
    (f : MarkdownFile) (w w1 : World σ) (dat body : String)
    (matter : FrontMatter) (found : List Content)
    (hread : env.ReadFile f.Path = .ok dat) (hparse : env.Parse dat = .ok (matter, body))
    (hs : doGetContent cl (leafQuery m (getTitle f matter)) w = ((found, none), w1)) :
    ∃ tail, (Upload env cl m f w).2.calls = (resolveParents cl m f w1).2.calls ++ tail ∧
      tail.length ≤ 2 ∧
      (∀ c ∈ tail,
        c = Call.createContent (leafCreate m f (wikiContentOf env matter body)
          (resolveParents cl m f w1).1.1) ∨ Call.isUpdate c = true) ∧
      (∀ err, (resolveParents cl m f w1).1.2 = some err →
        tail = [] ∧ Upload env cl m f w = (("", some err), (resolveParents cl m f w1).2)) := by
  rcases hra : resolveParents cl m f w1 with ⟨⟨ancestorID, oerr⟩, w2⟩
  cases oerr with
  | some err =>
    have hU := Upload_resolve_error env cl m f w w1 w2 dat body ancestorID err matter found hread
      hparse hs hra
    refine ⟨[], by rw [hU]; simp, by simp, by simp, ?_⟩
    intro e he
    simp only [Option.some.injEq] at he
    subst he
    exact ⟨rfl, hU⟩
  | none =>
    cases found with
    | cons content rest =>
      have hU := Upload_update_path env cl m f w w1 w2 dat body ancestorID matter content rest
        hread hparse hs hra
      refine ⟨[Call.updateContent
        (updatedPage content (wikiContentOf env matter body) ancestorID)], ?_, by simp,
        by simp [Call.isUpdate], by simp⟩
      rw [hU]
      split <;> simp [doUpdateContent]
    | nil =>
      rcases hcr : doCreateContent cl (leafCreate m f (wikiContentOf env matter body) ancestorID)
        w2 with ⟨⟨created, cerr⟩, w3⟩
      have hw3 : w3.calls = w2.calls ++
          [Call.createContent (leafCreate m f (wikiContentOf env matter body) ancestorID)] := by
        have := congrArg (fun r => r.2.calls) hcr
        simpa [doCreateContent] using this.symm
      cases cerr with
      | some err =>
        have hU := Upload_create_error env cl m f w w1 w2 w3 dat body ancestorID err matter
          created hread hparse hs hra hcr
        refine ⟨[Call.createContent
          (leafCreate m f (wikiContentOf env matter body) ancestorID)], ?_, by simp, by simp,
          by simp⟩
        rw [hU]
        exact hw3
      | none =>
        have hU := Upload_create_path env cl m f w w1 w2 w3 dat body ancestorID matter created
          hread hparse hs hra hcr
        refine ⟨[Call.createContent
          (leafCreate m f (wikiContentOf env matter body) ancestorID),
          Call.updateContent (labelledPage created (labelsOf matter))], ?_, by simp,
          by simp [Call.isUpdate], by simp⟩
        rw [hU]
        simp [doUpdateContent, hw3]

/-- The calls of `Upload`: at most the leaf search, two per path segment, a leaf
create and an update. -/
theorem Upload_call_count {σ : Type} (env : Env) (cl : Client σ) (m : Config)
    (f : MarkdownFile) (w : World σ) :
    ∃ new, (Upload env cl m f w).2.calls = w.calls ++ new ∧
      new.length ≤ 2 * f.Parents.length + 3 := by
  cases hr : env.ReadFile f.Path with
  | error e => exact ⟨[], by simp [Upload, hr], by simp⟩
  | ok dat =>
    cases hp : env.Parse dat with
    | error e => exact ⟨[], by simp [Upload, hr, hp], by simp⟩
    | ok mb =>
      obtain ⟨matter, body⟩ := mb
      rcases hs : doGetContent cl (leafQuery m (getTitle f matter)) w with ⟨⟨found, serr⟩, w1⟩
      have hw1 : w1.calls = w.calls ++ [Call.getContent (leafQuery m (getTitle f matter))] := by
        have := congrArg (fun r => r.2.calls) hs
        simpa [doGetContent] using this.symm
      cases serr with
      | some err =>
        rw [Upload_search_error env cl m f w w1 dat body err matter found hr hp hs]
        exact ⟨_, hw1, by simp⟩
      | none =>
        obtain ⟨tail, hcalls, hlen, -, -⟩ :=
          Upload_calls_after_search env cl m f w w1 dat body matter found hr hp hs
        obtain ⟨new, hres, hnew⟩ := resolveParents_call_bounds cl m f w1
        refine ⟨[Call.getContent (leafQuery m (getTitle f matter))] ++ new ++ tail, ?_, ?_⟩
        · rw [hcalls, hres, hw1]
          simp
        · simp only [List.length_append, List.length_cons, List.length_nil]
          omega

/-- The stored body of a document is never the boilerplate of a stub page: it
ends with the closing tag, the boilerplate with a line break. -/
theorem wikiContentOf_ne_default (env : Env) (matter : FrontMatter) (body : String) :
    wikiContentOf env matter body ≠ defaultAncestorPage := by
  intro h
  have h2 := congrArg (fun s => s.data.getLast?) h
  have h3 : defaultAncestorPage.data.getLast? = some '\n' := by
    set_option maxRecDepth 100000 in decide
  rw [wikiContentOf_spelled] at h2
  simp only [String.data_append, h3] at h2
  rw [List.getLast?_append] at h2
  have h4 : "</i></p>".data.getLast? = some '>' := by decide
  rw [h4] at h2
  simp at h2

/-- The calls of the resolver loop are pairwise distinct, and each is the search
or the stub create of a non-empty name of the path that had no cache entry. -/
theorem ancestorsLoop_calls_nodup {σ : Type} (cl : Client σ) (m : Config) (f : MarkdownFile)
    (path : List String) :
    ∀ (ancestorID : String) (w : World σ),
    ∃ new, (ancestorsLoop cl m f path ancestorID w).2.calls = w.calls ++ new ∧ new.Nodup ∧
      ∀ c ∈ new, ∃ parent ∈ path, ∃ prev, parent ≠ "" ∧ mapGet w.ParentIndex parent = none ∧
        (c = Call.getContent (parentQuery m parent) ∨
          c = Call.createContent (parentStub m prev parent)) := by
  induction path with
  | nil =>
    intro ancestorID w
    exact ⟨[], by simp [ancestorsLoop], by simp, by simp⟩
  | cons parent rest ih =>
    intro ancestorID w
    obtain ⟨new0, hcalls0, hnew0, -⟩ := FindOrCreateAncestor_effect cl m f ancestorID parent w
    have hshape : new0 = [] ∨ new0 = [Call.getContent (parentQuery m parent)] ∨
        new0 = [Call.getContent (parentQuery m parent),
          Call.createContent (parentStub m ancestorID parent)] := by
      rcases FindOrCreateAncestor_calls_shape cl m f ancestorID parent w with h | h | ⟨h, -⟩
      · left
        have h2 : w.calls ++ new0 = w.calls ++ [] := by rw [← hcalls0, h]; simp
        exact List.append_cancel_left h2
      · right; left
        exact List.append_cancel_left (hcalls0.symm.trans h)
      · right; right
        exact List.append_cancel_left (hcalls0.symm.trans h)
    have hnodup0 : new0.Nodup := by
      rcases hshape with h | h | h <;> rw [h] <;> simp
    have hfirst : ∀ c ∈ new0, ∃ p ∈ parent :: rest, ∃ prev, p ≠ "" ∧
        mapGet w.ParentIndex p = none ∧
        (c = Call.getContent (parentQuery m p) ∨ c = Call.createContent (parentStub m prev p)) := by
      intro c hc
      obtain ⟨h1, h2, h3⟩ := hnew0 c hc
      exact ⟨parent, List.mem_cons_self _ _, ancestorID, h1, h2, h3⟩
    cases he : (FindOrCreateAncestor cl m f ancestorID parent w).1.2 with
    | some err =>
      rw [ancestorsLoop_cons_err cl m f parent rest ancestorID w err he]
      exact ⟨new0, hcalls0, hnodup0, hfirst⟩
    | none =>
      rw [ancestorsLoop_cons_ok cl m f parent rest ancestorID w he]
      obtain ⟨new2, hcalls2, hnodup2, hnew2⟩ :=
        ih (FindOrCreateAncestor cl m f ancestorID parent w).1.1
          (FindOrCreateAncestor cl m f ancestorID parent w).2
      obtain ⟨-, -, -, hmono⟩ := FindOrCreateAncestor_effect cl m f ancestorID parent w
      refine ⟨new0 ++ new2, by rw [hcalls2, hcalls0, List.append_assoc], ?_, ?_⟩
      · rw [List.nodup_append]
        refine ⟨hnodup0, hnodup2, ?_⟩
        intro c hc0 hc2
        obtain ⟨hp, -, hor0⟩ := hnew0 c hc0
        obtain ⟨p, -, prev, -, hnone, hor2⟩ := hnew2 c hc2
        have hcached := FindOrCreateAncestor_caches cl m f ancestorID parent w hp he
        have hne : p ≠ parent := by
          intro h
          rw [h, hcached] at hnone
          cases hnone
        rcases hor0 with h0 | h0 <;> rcases hor2 with h2 | h2 <;> rw [h0] at h2 <;>
          simp [parentQuery, parentStub] at h2 <;> exact hne (by simp [h2])
      · intro c hc
        rcases List.mem_append.mp hc with h | h
        · exact hfirst c h
        · obtain ⟨p, hp, prev, h1, h2, h3⟩ := hnew2 c h
          refine ⟨p, List.mem_cons_of_mem _ hp, prev, h1, ?_, h3⟩
          cases hw : mapGet w.ParentIndex p with
          | none => rfl
          | some v =>
            rw [hmono p v hw] at h2
            cases h2

/-- The calls of the resolution inside `Upload` are pairwise distinct searches and
stub creates. -/
theorem resolveParents_calls_nodup {σ : Type} (cl : Client σ) (m : Config) (f : MarkdownFile)
    (w : World σ) :
    ∃ new, (resolveParents cl m f w).2.calls = w.calls ++ new ∧ new.Nodup ∧
      ∀ c ∈ new, ∃ parent prev,
        c = Call.getContent (parentQuery m parent) ∨
          c = Call.createContent (parentStub m prev parent) := by
  unfold resolveParents
  split
  · obtain ⟨new, h, hn, hall⟩ := ancestorsLoop_calls_nodup cl m f f.Parents "" w
    refine ⟨new, h, hn, ?_⟩
    intro c hc
    obtain ⟨p, -, prev, -, -, hor⟩ := hall c hc
    exact ⟨p, prev, hor⟩
  · exact ⟨[], by simp, by simp, by simp⟩

/-- What `Upload` issues after the resolution: nothing, one update, the leaf
create, or the leaf create followed by one update. -/
theorem Upload_tail_shape {σ : Type} (env : Env) (cl : Client σ) (m : Config)
    (f : MarkdownFile) (w w1 : World σ) (dat body : String)
    (matter : FrontMatter) (found : List Content)
    (hread : env.ReadFile f.Path = .ok dat) (hparse : env.Parse dat = .ok (matter, body))
    (hs : doGetContent cl (leafQuery m (getTitle f matter)) w = ((found, none), w1)) :
    ∃ tail, (Upload env cl m f w).2.calls = (resolveParents cl m f w1).2.calls ++ tail ∧
      (tail = [] ∨ (∃ sent, tail = [Call.updateContent sent]) ∨
        tail = [Call.createContent (leafCreate m f (wikiContentOf env matter body)
          (resolveParents cl m f w1).1.1)] ∨
        ∃ sent, tail = [Call.createContent (leafCreate m f (wikiContentOf env matter body)
          (resolveParents cl m f w1).1.1), Call.updateContent sent]) := by
  rcases hra : resolveParents cl m f w1 with ⟨⟨ancestorID, oerr⟩, w2⟩
  cases oerr with
  | some err =>
    have hU := Upload_resolve_error env cl m f w w1 w2 dat body ancestorID err matter found hread
      hparse hs hra
    exact ⟨[], by rw [hU]; simp, Or.inl rfl⟩
  | none =>
    cases found with
    | cons content rest =>
      have hU := Upload_update_path env cl m f w w1 w2 dat body ancestorID matter content rest
        hread hparse hs hra
      refine ⟨[Call.updateContent
        (updatedPage content (wikiContentOf env matter body) ancestorID)], ?_,
        Or.inr (Or.inl ⟨_, rfl⟩)⟩
      rw [hU]
      split <;> simp [doUpdateContent]
    | nil =>
      rcases hcr : doCreateContent cl (leafCreate m f (wikiContentOf env matter body) ancestorID)
        w2 with ⟨⟨created, cerr⟩, w3⟩
      have hw3 : w3.calls = w2.calls ++
          [Call.createContent (leafCreate m f (wikiContentOf env matter body) ancestorID)] := by
        have := congrArg (fun r => r.2.calls) hcr
        simpa [doCreateContent] using this.symm
      cases cerr with
      | some err =>
        have hU := Upload_create_error env cl m f w w1 w2 w3 dat body ancestorID err matter
          created hread hparse hs hra hcr
        refine ⟨[Call.createContent
          (leafCreate m f (wikiContentOf env matter body) ancestorID)], ?_,
          Or.inr (Or.inr (Or.inl rfl))⟩
        rw [hU]
        exact hw3
      | none =>
        have hU := Upload_create_path env cl m f w w1 w2 w3 dat body ancestorID matter created
          hread hparse hs hra hcr
        refine ⟨[Call.createContent
          (leafCreate m f (wikiContentOf env matter body) ancestorID),
          Call.updateContent (labelledPage created (labelsOf matter))], ?_,
          Or.inr (Or.inr (Or.inr ⟨_, rfl⟩))⟩
        rw [hU]
        simp [doUpdateContent, hw3]

/-- No call of one `Upload` is issued twice, and at most one of them is an
update. -/
theorem Upload_calls_nodup {σ : Type} (env : Env) (cl : Client σ) (m : Config)
    (f : MarkdownFile) (w : World σ) :
    ∃ new, (Upload env cl m f w).2.calls = w.calls ++ new ∧ new.Nodup ∧
      new.countP Call.isUpdate ≤ 1 := by
  cases hr : env.ReadFile f.Path with
  | error e => exact ⟨[], by simp [Upload, hr], by simp, by simp⟩
  | ok dat =>
    cases hp : env.Parse dat with
    | error e => exact ⟨[], by simp [Upload, hr, hp], by simp, by simp⟩
    | ok mb =>
      obtain ⟨matter, body⟩ := mb
      rcases hs : doGetContent cl (leafQuery m (getTitle f matter)) w with ⟨⟨found, serr⟩, w1⟩
      have hw1 : w1.calls = w.calls ++ [Call.getContent (leafQuery m (getTitle f matter))] := by
        have := congrArg (fun r => r.2.calls) hs
        simpa [doGetContent] using this.symm
      cases serr with
      | some err =>
        rw [Upload_search_error env cl m f w w1 dat body err matter found hr hp hs]
        exact ⟨_, hw1, by simp, by simp [Call.isUpdate]⟩
      | none =>
        obtain ⟨tail, hcalls, htail⟩ :=
          Upload_tail_shape env cl m f w w1 dat body matter found hr hp hs
        obtain ⟨rnew, hres, hrnodup, hrall⟩ := resolveParents_calls_nodup cl m f w1
        have hrupd : rnew.countP Call.isUpdate = 0 := by
          rw [List.countP_eq_zero]
          intro c hc
          obtain ⟨p, prev, hor⟩ := hrall c hc
          rcases hor with h | h <;> simp [h, Call.isUpdate]
        have hleaf : Call.getContent (leafQuery m (getTitle f matter)) ∉ rnew := by
          intro hc
          obtain ⟨p, prev, hor⟩ := hrall _ hc
          rcases hor with h | h
          · simp [leafQuery, parentQuery] at h
          · cases h
        have hcreate : Call.createContent (leafCreate m f (wikiContentOf env matter body)
            (resolveParents cl m f w1).1.1) ∉ rnew := by
          intro hc
          obtain ⟨p, prev, hor⟩ := hrall _ hc
          rcases hor with h | h
          · cases h
          · have hb := congrArg (fun c => match c with
              | Call.createContent bp => bp.BodyValue
              | _ => "") h
            simp only [leafCreate, parentStub] at hb
            exact wikiContentOf_ne_default env matter body hb
        have hupd : ∀ sent, Call.updateContent sent ∉ rnew := by
          intro sent hc
          obtain ⟨p, prev, hor⟩ := hrall _ hc
          rcases hor with h | h <;> cases h
        refine ⟨[Call.getContent (leafQuery m (getTitle f matter))] ++ rnew ++ tail, ?_, ?_, ?_⟩
        · rw [hcalls, hres, hw1]
          simp
        · rcases htail with h | ⟨sent, h⟩ | h | ⟨sent, h⟩ <;> subst h <;>
            simp [List.nodup_append, List.nodup_cons, hrnodup, hleaf, hcreate, hupd]
        · rcases htail with h | ⟨sent, h⟩ | h | ⟨sent, h⟩ <;> subst h <;>
            simp [List.countP_append, List.countP_cons, hrupd, Call.isUpdate]

/-- C18 (bound on remote calls).  One resolver step issues no call, or one search, or
one search followed by one create, the create only after a search that returned
no page and no error.  For a path of `n` folder names `FindOrCreateAncestors`
issues at most `n` searches and at most `n` creates, and no update.  One
`Upload` issues at most `2 * n + 3` calls, at most one of them an update.  No
call is retried: the calls of one resolution, and those of one `Upload`, are
pairwise distinct, so none is issued a second time. -/
theorem remote_call_bounds {σ : Type} (env : Env) (cl : Client σ) (m : Config)
    (f : MarkdownFile) (w : World σ) :
    (∀ ancestorID parent,
      (FindOrCreateAncestor cl m f ancestorID parent w).2.calls = w.calls ∨
      (FindOrCreateAncestor cl m f ancestorID parent w).2.calls =
        w.calls ++ [Call.getContent (parentQuery m parent)] ∨
      ((FindOrCreateAncestor cl m f ancestorID parent w).2.calls =
        w.calls ++ [Call.getContent (parentQuery m parent),
          Call.createContent (parentStub m ancestorID parent)] ∧
        (cl.GetContent (parentQuery m parent) w.store).1 = ([], none))) ∧
    (∃ new, (FindOrCreateAncestors cl m f w).2.calls = w.calls ++ new ∧
      new.countP Call.isSearch ≤ f.Parents.length ∧
      new.countP Call.isCreate ≤ f.Parents.length ∧
      new.countP Call.isUpdate = 0 ∧
      new.Nodup) ∧
    (∃ new, (Upload env cl m f w).2.calls = w.calls ++ new ∧
      new.length ≤ 2 * f.Parents.length + 3 ∧
      new.countP Call.isUpdate ≤ 1 ∧
      new.Nodup) := by
  refine ⟨fun a p => FindOrCreateAncestor_calls_shape cl m f a p w, ?_, ?_⟩
  · obtain ⟨new, h, hs, hc, hu, -⟩ := ancestorsLoop_call_bounds cl m f f.Parents "" w
    obtain ⟨new2, h2, hn, -⟩ := ancestorsLoop_calls_nodup cl m f f.Parents "" w
    have heq : new2 = new := List.append_cancel_left (h2.symm.trans h)
    rw [heq] at hn
    exact ⟨new, h, hs, hc, hu, hn⟩
  · obtain ⟨new, h, hl⟩ := Upload_call_count env cl m f w
    obtain ⟨new2, h2, hn, hu⟩ := Upload_calls_nodup env cl m f w
    have heq : new2 = new := List.append_cancel_left (h2.symm.trans h)
    rw [heq] at hn hu
    exact ⟨new, h, hl, hu, hn⟩

/-- C11.  For a document with a non-empty ancestor path whose leaf search returned
without error, page found or not, the calls of `Upload` are the leaf search,
then the calls of `FindOrCreateAncestors` run on the world the search left,
then at most a create and an update for the leaf.  If the resolution fails,
`Upload` returns the error of the resolver as it is, in the world the resolver
left: after the resolver's calls there is no create and no update. -/
theorem Upload_resolution_order {σ : Type} (env : Env) (cl : Client σ) (m : Config)
    (f : MarkdownFile) (w w1 : World σ) (dat body : String)
    (matter : FrontMatter) (found : List Content)
    (hparents : f.Parents ≠ [])
    (hread : env.ReadFile f.Path = .ok dat) (hparse : env.Parse dat = .ok (matter, body))
    (hs : doGetContent cl (leafQuery m (getTitle f matter)) w = ((found, none), w1)) :
    (∃ tail,
      (Upload env cl m f w).2.calls =
        w.calls ++ [Call.getContent (leafQuery m (getTitle f matter))] ++
          newCalls w1.calls (FindOrCreateAncestors cl m f w1).2.calls ++ tail ∧
      (∀ c ∈ tail,
        c = Call.createContent (leafCreate m f (wikiContentOf env matter body)
          (FindOrCreateAncestors cl m f w1).1.1) ∨ Call.isUpdate c = true)) ∧
    (∀ c ∈ newCalls w1.calls (FindOrCreateAncestors cl m f w1).2.calls,
      ∃ parent ∈ f.Parents, ∃ prev,
        c = Call.getContent (parentQuery m parent) ∨
          c = Call.createContent (parentStub m prev parent)) ∧
    (∀ err, (FindOrCreateAncestors cl m f w1).1.2 = some err →
      Upload env cl m f w = (("", some err), (FindOrCreateAncestors cl m f w1).2) ∧
      (Upload env cl m f w).2.calls =
        w.calls ++ [Call.getContent (leafQuery m (getTitle f matter))] ++
          newCalls w1.calls (FindOrCreateAncestors cl m f w1).2.calls) := by
  have hlen : f.Parents.length > 0 := List.length_pos.mpr hparents
  have hrp : resolveParents cl m f w1 = FindOrCreateAncestors cl m f w1 := by
    simp [resolveParents, hlen]
  have hw1 : w1.calls = w.calls ++ [Call.getContent (leafQuery m (getTitle f matter))] := by
    have := congrArg (fun r => r.2.calls) hs
    simpa [doGetContent] using this.symm
  obtain ⟨hres1, hres2⟩ := resolveParents_calls cl m f w1
  rw [hrp] at hres1 hres2
  obtain ⟨tail, hcalls, -, htail, herr⟩ :=
    Upload_calls_after_search env cl m f w w1 dat body matter found hread hparse hs
  rw [hrp] at hcalls htail herr
  have hlog : (FindOrCreateAncestors cl m f w1).2.calls =
      w.calls ++ [Call.getContent (leafQuery m (getTitle f matter))] ++
        newCalls w1.calls (FindOrCreateAncestors cl m f w1).2.calls := by
    rw [← hw1]
    exact hres1
  refine ⟨⟨tail, ?_, htail⟩, hres2, ?_⟩
  · rw [hcalls, ← hlog]
  · intro err he
    obtain ⟨-, hU⟩ := herr err he
    refine ⟨hU, ?_⟩
    rw [hU]
    exact hlog

/-- C11 at a concrete input: the create of the stub for folder `zeta` fails, and
`Upload` returns the error of the resolver. -/
theorem Upload_resolution_order_witness :
    (Upload (constEnv []) createFailingClient exampleConfig zetaFile emptyWorld).1 =
      ("", some "Error creating parent page docs/zeta/q.md for zeta: create refused") :=
  congrArg Prod.fst
    ((Upload_resolution_order (constEnv []) createFailingClient exampleConfig zetaFile emptyWorld
      _ _ _ [] [] (by decide) rfl rfl rfl).2.2
      "Error creating parent page docs/zeta/q.md for zeta: create refused" rfl).1

/-- With an empty ancestor path the resolution inside `Upload` does nothing. -/
theorem resolveParents_empty {σ : Type} (cl : Client σ) (m : Config) (f : MarkdownFile)
    (w : World σ) (hparents : f.Parents = []) :
    resolveParents cl m f w = (("", none), w) := by
  simp [resolveParents, hparents]

/-- C12 (empty ancestor path).  For a document whose `Parents` is empty, `Upload`
leaves `ParentIndex` unchanged and every call it issues is the leaf search, the
leaf create with an empty ancestors list, or an update: no ancestor search, no
stub create.  When the leaf search finds a page, the calls are that search and
one update, and the page sent has the ancestors of the found page. -/
theorem Upload_empty_path {σ : Type} (env : Env) (cl : Client σ) (m : Config)
    (f : MarkdownFile) (w : World σ) (hparents : f.Parents = []) :
    (Upload env cl m f w).2.ParentIndex = w.ParentIndex ∧
    (∃ new, (Upload env cl m f w).2.calls = w.calls ++ new ∧
      ∀ c ∈ new,
        (∃ title, c = Call.getContent (leafQuery m title)) ∨
        (∃ bp, c = Call.createContent bp ∧ bp.Title = f.Title ∧ bp.Ancestors = []) ∨
        Call.isUpdate c = true) ∧
    (∀ dat matter body content rest w1, env.ReadFile f.Path = .ok dat →
      env.Parse dat = .ok (matter, body) →
      doGetContent cl (leafQuery m (getTitle f matter)) w = ((content :: rest, none), w1) →
      ∃ sent, (Upload env cl m f w).2.calls =
          w.calls ++ [Call.getContent (leafQuery m (getTitle f matter)),
            Call.updateContent sent] ∧
        sent.Ancestors = content.Ancestors) ∧
    (∀ dat matter body w1, env.ReadFile f.Path = .ok dat →
      env.Parse dat = .ok (matter, body) →
      doGetContent cl (leafQuery m (getTitle f matter)) w = (([], none), w1) →
      ∃ bp tail, (Upload env cl m f w).2.calls =
          w.calls ++ [Call.getContent (leafQuery m (getTitle f matter)),
            Call.createContent bp] ++ tail ∧
        bp.Ancestors = [] ∧ ∀ c ∈ tail, Call.isUpdate c = true) := by
  refine ⟨?_, ?_, ?_, ?_⟩
  · rcases Upload_ParentIndex env cl m f w with h | ⟨w1, h1, h⟩
    · exact h
    · rw [h, resolveParents_empty cl m f w1 hparents]
      exact h1
  · cases hr : env.ReadFile f.Path with
    | error e => exact ⟨[], by simp [Upload, hr], by simp⟩
    | ok dat =>
      cases hp : env.Parse dat with
      | error e => exact ⟨[], by simp [Upload, hr, hp], by simp⟩
      | ok mb =>
        obtain ⟨matter, body⟩ := mb
        rcases hs : doGetContent cl (leafQuery m (getTitle f matter)) w with
          ⟨⟨found, serr⟩, w1⟩
        have hw1 : w1.calls =
            w.calls ++ [Call.getContent (leafQuery m (getTitle f matter))] := by
          have := congrArg (fun r => r.2.calls) hs
          simpa [doGetContent] using this.symm
        cases serr with
        | some err =>
          rw [Upload_search_error env cl m f w w1 dat body err matter found hr hp hs]
          refine ⟨_, hw1, ?_⟩
          intro c hc
          simp only [List.mem_singleton] at hc
          exact Or.inl ⟨_, hc⟩
        | none =>
          obtain ⟨tail, hcalls, -, htail, -⟩ :=
            Upload_calls_after_search env cl m f w w1 dat body matter found hr hp hs
          rw [resolveParents_empty cl m f w1 hparents] at hcalls htail
          refine ⟨[Call.getContent (leafQuery m (getTitle f matter))] ++ tail, ?_, ?_⟩
          · rw [hcalls]
            simp [hw1]
          · intro c hc
            rcases List.mem_append.mp hc with h | h
            · simp only [List.mem_singleton] at h
              exact Or.inl ⟨_, h⟩
            · rcases htail c h with h2 | h2
              · exact Or.inr (Or.inl ⟨_, h2, by simp [leafCreate]⟩)
              · exact Or.inr (Or.inr h2)
  · intro dat matter body content rest w1 hr hp hs
    have hw1 : w1.calls = w.calls ++ [Call.getContent (leafQuery m (getTitle f matter))] := by
      have := congrArg (fun r => r.2.calls) hs
      simpa [doGetContent] using this.symm
    refine ⟨updatedPage content (wikiContentOf env matter body) "", ?_, by simp [updatedPage]⟩
    rw [Upload_update_path env cl m f w w1 w1 dat body "" matter content rest hr hp hs
      (resolveParents_empty cl m f w1 hparents)]
    split <;> simp [doUpdateContent, hw1]
  · intro dat matter body w1 hr hp hs
    have hw1 : w1.calls = w.calls ++ [Call.getContent (leafQuery m (getTitle f matter))] := by
      have := congrArg (fun r => r.2.calls) hs
      simpa [doGetContent] using this.symm
    obtain ⟨tail, hcalls, -, htail, -⟩ :=
      Upload_calls_after_search env cl m f w w1 dat body matter [] hr hp hs
    rw [resolveParents_empty cl m f w1 hparents] at hcalls htail
    rcases hcr : doCreateContent cl (leafCreate m f (wikiContentOf env matter body) "") w1 with
      ⟨⟨created, cerr⟩, w3⟩
    have hw3 : w3.calls = w1.calls ++
        [Call.createContent (leafCreate m f (wikiContentOf env matter body) "")] := by
      have := congrArg (fun r => r.2.calls) hcr
      simpa [doCreateContent] using this.symm
    cases cerr with
    | some err =>
      refine ⟨leafCreate m f (wikiContentOf env matter body) "", [], ?_, by simp [leafCreate],
        by simp⟩
      rw [Upload_create_error env cl m f w w1 w1 w3 dat body "" err matter created hr hp hs
        (resolveParents_empty cl m f w1 hparents) hcr]
      simp [hw3, hw1]
    | none =>
      refine ⟨leafCreate m f (wikiContentOf env matter body) "",
        [Call.updateContent (labelledPage created (labelsOf matter))], ?_, by simp [leafCreate],
        by simp [Call.isUpdate]⟩
      rw [Upload_create_path env cl m f w w1 w1 w3 dat body "" matter created hr hp hs
        (resolveParents_empty cl m f w1 hparents) hcr]
      simp [doUpdateContent, hw3, hw1]

/-- C12 at concrete inputs: a new document without ancestor folders leaves the
cache empty; on re-upload the page sent keeps the ancestors of the found page,
here none. -/
theorem Upload_empty_path_witness :
    (Upload (constEnv []) memClient exampleConfig plainFile emptyWorld).2.ParentIndex = [] ∧
    ∃ sent,
      (Upload (constEnv []) memClient exampleConfig plainFile
        (Upload (constEnv []) memClient exampleConfig plainFile emptyWorld).2).2.calls.getLast? =
        some (Call.updateContent sent) ∧
      sent.Ancestors = [] := by
  refine ⟨(Upload_empty_path (constEnv []) memClient exampleConfig plainFile emptyWorld rfl).1,
    ?_⟩
  obtain ⟨sent, h1, h2⟩ :=
    (Upload_empty_path (constEnv []) memClient exampleConfig plainFile
      (Upload (constEnv []) memClient exampleConfig plainFile emptyWorld).2 rfl).2.2.1
      _ [] _ _ [] _ rfl rfl rfl
  exact ⟨sent, by rw [h1]; simp, h2.trans rfl⟩

/-- C14.  When `Upload` returns without error, its last call is an update, and the
URL returned is the configured endpoint followed by the tinyUI link of the page
the store returned for that update: the update of the found page on the update
path, the label-persisting update that follows the create on the create path. -/
theorem Upload_url {σ : Type} (env : Env) (cl : Client σ) (m : Config)
    (f : MarkdownFile) (w : World σ) (hok : (Upload env cl m f w).1.2 = none) :
    ∃ (sent : Content) (w2 : World σ),
      (Upload env cl m f w).2.calls = w2.calls ++ [Call.updateContent sent] ∧
      (Upload env cl m f w).2.store = (cl.UpdateContent sent w2.store).2 ∧
      (Upload env cl m f w).1.1 = m.Endpoint ++ (cl.UpdateContent sent w2.store).1.1.Tinyui ∧
      ((∃ content wikiContent ancestorID,
          sent = updatedPage content wikiContent ancestorID ∧
          (cl.UpdateContent sent w2.store).1.2 = none) ∨
        (∃ (bp : CreateContentBodyParameters) (w3 : World σ) (created : Content)
            (labels : List Label),
          w2.calls = w3.calls ++ [Call.createContent bp] ∧
          (cl.CreateContent bp w3.store).1 = (created, none) ∧
          sent = labelledPage created labels)) := by
  cases hr : env.ReadFile f.Path with
  | error e => simp [Upload, hr] at hok
  | ok dat =>
    cases hp : env.Parse dat with
    | error e => simp [Upload, hr, hp] at hok
    | ok mb =>
      obtain ⟨matter, body⟩ := mb
      rcases hs : doGetContent cl (leafQuery m (getTitle f matter)) w with ⟨⟨found, serr⟩, w1⟩
      cases serr with
      | some err =>
        rw [Upload_search_error env cl m f w w1 dat body err matter found hr hp hs] at hok
        cases hok
      | none =>
        rcases hra : resolveParents cl m f w1 with ⟨⟨ancestorID, oerr⟩, w2⟩
        cases oerr with
        | some err =>
          rw [Upload_resolve_error env cl m f w w1 w2 dat body ancestorID err matter found hr hp
            hs hra] at hok
          cases hok
        | none =>
          cases found with
          | cons content rest =>
            have hU := Upload_update_path env cl m f w w1 w2 dat body ancestorID matter content
              rest hr hp hs hra
            rw [hU] at hok ⊢
            cases hu : (doUpdateContent cl
                (updatedPage content (wikiContentOf env matter body) ancestorID) w2).1.2 with
            | some err => simp [hu] at hok
            | none =>
              refine ⟨updatedPage content (wikiContentOf env matter body) ancestorID, w2, ?_, ?_,
                ?_, Or.inl ⟨content, _, _, rfl, by simpa [doUpdateContent] using hu⟩⟩ <;>
                simp [hu, doUpdateContent]
          | nil =>
            rcases hcr : doCreateContent cl
              (leafCreate m f (wikiContentOf env matter body) ancestorID) w2 with
              ⟨⟨created, cerr⟩, w3⟩
            cases cerr with
            | some err =>
              rw [Upload_create_error env cl m f w w1 w2 w3 dat body ancestorID err matter created
                hr hp hs hra hcr] at hok
              cases hok
            | none =>
              rw [Upload_create_path env cl m f w w1 w2 w3 dat body ancestorID matter created hr
                hp hs hra hcr]
              refine ⟨labelledPage created (labelsOf matter), w3, by simp [doUpdateContent],
                by simp [doUpdateContent], by simp [doUpdateContent],
                Or.inr ⟨leafCreate m f (wikiContentOf env matter body) ancestorID, w2, created,
                  labelsOf matter, ?_, ?_, rfl⟩⟩
              · have := congrArg (fun r => r.2.calls) hcr
                simpa [doCreateContent] using this.symm
              · have := congrArg (fun r => r.1) hcr
                simpa [doCreateContent] using this

/-- C14 at a concrete input: the URL of a new document is the endpoint followed by
the link of the page the store returned for the last update. -/
theorem Upload_url_witness :
    ∃ (sent : Content) (w2 : World MemStore),
      (Upload (constEnv []) memClient exampleConfig plainFile emptyWorld).2.calls =
        w2.calls ++ [Call.updateContent sent] ∧
      (Upload (constEnv []) memClient exampleConfig plainFile emptyWorld).1.1 =
        "https://wiki" ++ (memClient.UpdateContent sent w2.store).1.1.Tinyui := by
  obtain ⟨sent, w2, h1, -, h3, -⟩ :=
    Upload_url (constEnv []) memClient exampleConfig plainFile emptyWorld rfl
  exact ⟨sent, w2, h1, h3⟩

end Markdown2Confluence
